import Mathlib

/-!
# PhProbe: a shallow embedding of `PhProbe.cpp` / `PhProbe.h`

Conventions of the embedding.

* `float` values are exact rationals (`ℚ`) wherever a statement is one of exact
  arithmetic: pH, voltages, slopes and offsets in `readPh`, `calibrateProbe` and the
  amplifier calibration.
* Where the rounding of `float`, a division by zero or a `nan` decides a statement (the
  value `readPh` returns at `probeVoltage == probeOffset`, the guess that
  `autoCalibrateProbe` classifies), a `float` is a `FloatValue`: IEEE-754 binary32 with
  round to nearest even, the infinities and `nan`. Fields and arguments stay rationals and
  are converted where they are used (`FloatValue.ofRat`).
* `uint8_t`, `uint16_t` and `unsigned long` values are natural numbers; where the
  C++ arithmetic can leave the range of the type the reduction modulo `2 ^ w` is
  written out: `uint16_t total` in `readRaw` (modulo `2 ^ 16`), `unsigned long endTime`
  in `readStableValue` (modulo `2 ^ 32`, the width of `millis()` on Arduino targets),
  the `int8_t key` of the NIST tables (low 8 bits, two's complement), and the product
  `stabilizeDelaySecs * 1000`, which is evaluated in the target's `unsigned int` / `int`
  whose width the source does not fix (`Env.intModulus`).
* The Arduino services `analogRead`, `millis` and `delay` are an environment
  `Env` (what the hardware answers) and a `World` (how many questions were asked
  so far, and which delays were requested).
* `readStableValue` contains `for (;;)`; its embedding takes a bound on the
  number of loop iterations and answers `none` when the bound is exhausted.
  `readRaw` answers `none` for `samples = 0` (division by zero in the source).
-/

/-- Calibration coefficients, `struct CalibrationValues` of `PhProbe.h` with its defaults. -/
structure CalibrationValues where
  ampGain : ℚ := -491 / 100
  ampOffset : ℚ := 2
  probeSlope : ℚ := 1
  probeOffset : ℚ := 0
  isoelectricPh : ℚ := 7
  deriving DecidableEq, Repr

/-- Fields of `class PhProbe` (public configuration and private calibration state). -/
structure PhProbe where
  calibrationValues : CalibrationValues := {}
  numSamples : Nat := 5
  numCalibrationSamples : Nat := 10
  sampleInterval : Nat := 1
  stabilizeDelaySecs : Nat := 6
  probePin : Nat := 0
  lastCalReading : Nat := 0
  lastCalPh : ℚ := 0
  lastCalTemp : ℚ := 0
  deriving DecidableEq, Repr

/-- Answers of the hardware: `adc pin k` is what the `k`-th call of `analogRead(pin)`
returns, `clock k` is the up-time in milliseconds at the `k`-th call of `millis()`.
`intModulus` is the modulus of the target's `unsigned int` arithmetic in which the
product `stabilizeDelaySecs * 1000` is evaluated (`2 ^ 16` on AVR boards, no wrap on
32-bit boards, where any modulus above `65535 * 1000` describes the product). -/
structure Env where
  adc : Nat → Nat → Nat
  clock : Nat → Nat
  intModulus : Nat

/-- Interaction with the hardware so far: number of `analogRead` calls, number of
`millis` calls, and the arguments of the `delay` calls in the order they were made. -/
structure World where
  reads : Nat := 0
  clockReads : Nat := 0
  delays : List Nat := []
  deriving DecidableEq, Repr

/-- A value of the C++ type `float` where its rounding and its special values matter:
IEEE-754 binary32 in sign and magnitude. `num s m` is the finite value `± m` with `m ≥ 0`
(`m = 0` gives the two zeros), `inf s` is `± ∞`, `nan` is not-a-number. -/
inductive FloatValue where
  | num (negative : Bool) (magnitude : ℚ)
  | inf (negative : Bool)
  | nan
  deriving DecidableEq, Repr

namespace FloatValue

/-- The binary exponent that fixes the spacing of binary32 around the magnitude `m`:
`⌊log₂ m⌋` kept within the normal range `-126 .. 127` (subnormal magnitudes share the
spacing of the smallest normal binade). -/
def binade (m : ℚ) : ℤ :=
  -126 + (((List.range 253).filter (fun k => (2 : ℚ) ^ ((k : ℤ) - 125) ≤ m)).length : ℤ)

/-- The spacing of binary32 values around the magnitude `m`: 24 significant bits. -/
def ulp (m : ℚ) : ℚ := (2 : ℚ) ^ (binade m - 23)

/-- The nearest integer, ties to the even one. -/
def roundHalfEven (x : ℚ) : ℤ :=
  if x - ⌊x⌋ < 1 / 2 then ⌊x⌋
  else if 1 / 2 < x - ⌊x⌋ then ⌊x⌋ + 1
  else if ⌊x⌋ % 2 = 0 then ⌊x⌋ else ⌊x⌋ + 1

/-- Round-to-nearest-even of a magnitude to binary32; `none` is overflow. -/
def roundMagnitude (m : ℚ) : Option ℚ :=
  if (roundHalfEven (m / ulp m) : ℚ) * ulp m < (2 : ℚ) ^ (128 : ℕ) then
    some ((roundHalfEven (m / ulp m) : ℚ) * ulp m)
  else none

/-- The binary32 value nearest to `± m`; overflow gives the infinity of that sign. -/
def roundTo (negative : Bool) (m : ℚ) : FloatValue :=
  match roundMagnitude m with
  | some r => num negative r
  | none => inf negative

/-- Conversion of a number to `float`: a literal such as `273.15f`, a `uint16_t` cast
with `(float)`, or the content of a `float` field. -/
def ofRat (q : ℚ) : FloatValue := roundTo (decide (q < 0)) |q|

/-- The float of value `q`, taken as it is: no rounding. -/
def ofExact (q : ℚ) : FloatValue := num (decide (q < 0)) |q|

/-- The rational `± m`. -/
def signed (negative : Bool) (m : ℚ) : ℚ := if negative then -m else m

/-- The value of a finite float. -/
def value : FloatValue → Option ℚ
  | num s m => some (signed s m)
  | _ => none

/-- Unary minus. -/
def neg : FloatValue → FloatValue
  | num s m => num (!s) m
  | inf s => inf (!s)
  | nan => nan

/-- The operator `+` of `float`. -/
def add : FloatValue → FloatValue → FloatValue
  | nan, _ => nan
  | _, nan => nan
  | inf s, inf t => if s = t then inf s else nan
  | inf s, num _ _ => inf s
  | num _ _, inf t => inf t
  | num s x, num t y =>
    if signed s x + signed t y = 0 then num (s && t) 0
    else ofRat (signed s x + signed t y)

/-- The operator `-` of `float`. -/
def sub (a b : FloatValue) : FloatValue := add a (neg b)

/-- The operator `*` of `float`. -/
def mul : FloatValue → FloatValue → FloatValue
  | nan, _ => nan
  | _, nan => nan
  | inf s, inf t => inf (xor s t)
  | inf s, num t y => if y = 0 then nan else inf (xor s t)
  | num s x, inf t => if x = 0 then nan else inf (xor s t)
  | num s x, num t y => roundTo (xor s t) (x * y)

/-- The operator `/` of `float`: a nonzero value over zero is an infinity, `0 / 0` and
`∞ / ∞` are `nan`. -/
def div : FloatValue → FloatValue → FloatValue
  | nan, _ => nan
  | _, nan => nan
  | inf _, inf _ => nan
  | inf s, num t _ => inf (xor s t)
  | num s _, inf t => num (xor s t) 0
  | num s x, num t y =>
    if y = 0 then (if x = 0 then nan else inf (xor s t))
    else roundTo (xor s t) (x / y)

/-- The operator `<=` of `float`: false as soon as one side is `nan`. -/
def le : FloatValue → FloatValue → Bool
  | nan, _ => false
  | _, nan => false
  | inf true, _ => true
  | _, inf false => true
  | inf false, _ => false
  | _, inf true => false
  | num s x, num t y => decide (signed s x ≤ signed t y)

/-- The operator `>=` of `float`. -/
def ge (a b : FloatValue) : Bool := le b a

end FloatValue

namespace PhProbe

/-! ### The program -/

/-- The macro `ADC_FACTOR`, `5.0f / 1024.0f`. -/
def ADC_FACTOR : ℚ := 5 / 1024

/-- The constant `C = 2.303f*8.314f/96490.0f` of `readPh` and `calibrateProbe`. -/
def nernstC : ℚ := 2303 / 1000 * (8314 / 1000) / 96490

/-- The Arduino call `analogRead(pin)`. -/
def analogRead (env : Env) (pin : Nat) (w : World) : Nat × World :=
  (env.adc pin w.reads, { w with reads := w.reads + 1 })

/-- The Arduino call `millis()`: the up-time as an `unsigned long` (32 bits). -/
def millis (env : Env) (w : World) : Nat × World :=
  (env.clock w.clockReads % 2 ^ 32, { w with clockReads := w.clockReads + 1 })

/-- The Arduino call `delay(ms)`. -/
def delay (ms : Nat) (w : World) : World :=
  { w with delays := w.delays ++ [ms] }

/-- The expression `stabilizeDelaySecs * 1000` (a `uint16_t` times an `int` literal). -/
def stabilizeDelayMs (env : Env) (p : PhProbe) : Nat :=
  p.stabilizeDelaySecs * 1000 % env.intModulus

/-- The `for` loop of `readRaw`: `n` iterations remain, `i` is the loop counter and
`total` the `uint16_t` accumulator. -/
def readRawLoop (env : Env) (p : PhProbe) (samples : Nat) :
    Nat → Nat → Nat → World → Nat × World
  | 0, _, total, w => (total, w)
  | n + 1, i, total, w =>
    let r := analogRead env p.probePin w
    let total1 := (total + r.1) % 65536
    let w2 := if i ≠ samples - 1 then delay p.sampleInterval r.2 else r.2
    readRawLoop env p samples n (i + 1) total1 w2

/-- The method `readRaw(samples)`: the truncated average of `samples` ADC samples. -/
def readRaw (env : Env) (p : PhProbe) (samples : Nat) (w : World) : Option (Nat × World) :=
  if samples = 0 then none
  else
    let r := readRawLoop env p samples samples 0 0 w
    some (r.1 / samples, r.2)

/-- The `for (;;)` loop of `readStableValue`, at most `fuel` iterations. -/
def readStableValueLoop (env : Env) (p : PhProbe) (samples : Nat) :
    Nat → Nat → Int → Nat → World → Option (Nat × World)
  | 0, _, _, _, _ => none
  | fuel + 1, endTime, lastDirection, lastValue, w =>
    match readRaw env p samples w with
    | none => none
    | some (value, w1) =>
      if value = lastValue then
        let t := millis env w1
        if t.1 ≥ endTime then some (value, t.2)
        else readStableValueLoop env p samples fuel endTime lastDirection lastValue t.2
      else
        let t := millis env w1
        let endTime1 := (t.1 + stabilizeDelayMs env p) % 2 ^ 32
        let direction : Int := if value > lastValue then 1 else -1
        if lastDirection ≠ 0 ∧ direction ≠ lastDirection then
          readRaw env p samples (delay (stabilizeDelayMs env p) t.2)
        else
          let lastDirection1 := if lastValue ≠ 0 then direction else lastDirection
          readStableValueLoop env p samples fuel endTime1 lastDirection1 value t.2

/-- The method `readStableValue(samples)`. -/
def readStableValue (env : Env) (fuel : Nat) (p : PhProbe) (samples : Nat) (w : World) :
    Option (Nat × World) :=
  let t := millis env w
  readStableValueLoop env p samples fuel ((t.1 + stabilizeDelayMs env p) % 2 ^ 32) 0 0 t.2

/-- The expression `stabilize ? readStableValue(n) : readRaw(n)` that opens both `readPh`
and `calibrateProbe`. -/
def takeReading (env : Env) (fuel : Nat) (p : PhProbe) (stabilize : Bool) (n : Nat)
    (w : World) : Option (Nat × World) :=
  if stabilize then readStableValue env fuel p n w else readRaw env p n w

/-- The amplifier correction of `readPh` and `calibrateProbe`:
`((float)reading * ADC_FACTOR - ampOffset) / ampGain`. -/
def probeVoltage (cv : CalibrationValues) (reading : Nat) : ℚ :=
  ((reading : ℚ) * ADC_FACTOR - cv.ampOffset) / cv.ampGain

/-- The arithmetic of `readPh` after the reading was taken. -/
def phOfReading (cv : CalibrationValues) (adcReading : Nat) (temperature : ℚ) : ℚ :=
  (cv.probeOffset - probeVoltage cv adcReading) / cv.probeSlope / nernstC
    / (temperature + 27315 / 100) + cv.isoelectricPh

/-- The method `readPh(stabilize, temperature)`. -/
def readPh (env : Env) (fuel : Nat) (p : PhProbe) (stabilize : Bool) (temperature : ℚ)
    (w : World) : Option (ℚ × World) :=
  match takeReading env fuel p stabilize p.numSamples w with
  | none => none
  | some (adcReading, w1) => some (phOfReading p.calibrationValues adcReading temperature, w1)

/-- The method `resetCalibrateProbe()`. -/
def resetCalibrateProbe (p : PhProbe) : PhProbe :=
  { p with lastCalReading := 0 }

/-- The body of `calibrateProbe` after the reading `calReading` was taken. -/
def calibrateWith (p : PhProbe) (calReading : Nat) (pH temperature : ℚ) : Nat × PhProbe :=
  if calReading = 0 then (2, resetCalibrateProbe p)
  else if p.lastCalReading = 0 then
    (1, { p with lastCalReading := calReading, lastCalPh := pH, lastCalTemp := temperature })
  else
    let calDiffThreshold := 50
    if (calReading ≥ p.lastCalReading ∧ calReading - p.lastCalReading < calDiffThreshold) ∨
        (calReading < p.lastCalReading ∧ p.lastCalReading - calReading < calDiffThreshold) then
      (2, resetCalibrateProbe p)
    else
      let cv := p.calibrationValues
      let probeVoltage1 := probeVoltage cv p.lastCalReading
      let probeVoltage2 := probeVoltage cv calReading
      let slope := (probeVoltage1 - probeVoltage2) / nernstC /
        ((temperature + 27315 / 100) * (pH - cv.isoelectricPh)
          - (p.lastCalTemp + 27315 / 100) * (p.lastCalPh - cv.isoelectricPh))
      let offset := probeVoltage2 + slope * nernstC * (temperature + 27315 / 100)
        * (pH - cv.isoelectricPh)
      (0, resetCalibrateProbe
        { p with calibrationValues := { cv with probeSlope := slope, probeOffset := offset } })

/-- The method `calibrateProbe(pH, stabilize, temperature)`: status, new probe state, world. -/
def calibrateProbe (env : Env) (fuel : Nat) (p : PhProbe) (pH : ℚ) (stabilize : Bool)
    (temperature : ℚ) (w : World) : Option (Nat × PhProbe × World) :=
  match takeReading env fuel p stabilize p.numCalibrationSamples w with
  | none => none
  | some (calReading, w1) =>
    let r := calibrateWith p calReading pH temperature
    some (r.1, r.2, w1)

/-- Conversion of a `float` to `int8_t`: the fraction is discarded (truncation toward
zero). A truncated value outside `[-128, 127]` is not representable (the C++ conversion
is then undefined); the embedding follows the usual targets, which convert to a wider
integer and keep its low 8 bits as a two's-complement value. -/
def toInt8 (x : ℚ) : Int :=
  let t : Int := if 0 ≤ x then ⌊x⌋ else ⌈x⌉
  (t + 128) % 256 - 128

/-- The common body of `getNIST4TempOffset`, `getNIST7TempOffset` and
`getNIST10TempOffset`: the clamped table index for temperature `temp`. -/
def nistIndex (temp : ℚ) : Int :=
  let tableStartTemp : Int := 5
  let tableIncTemp : Int := 5
  let tableLen : Int := 12
  let key : Int := toInt8 (temp / (tableIncTemp : ℚ) - ((tableStartTemp / tableIncTemp : Int) : ℚ))
  if key < 0 then 0 else if key ≥ tableLen then tableLen - 1 else key

/-- The table of `getNIST4TempOffset`, in hundredths of a pH unit. -/
def nist4Table : List Int := [0, 0, 0, 0, 0, 1, 2, 3, 4, 6, 7, 9]

/-- The table of `getNIST7TempOffset`, in hundredths of a pH unit. -/
def nist7Table : List Int := [9, 6, 4, 2, 0, -1, -2, -3, -3, -4, -4, -3]

/-- The table of `getNIST10TempOffset`, in hundredths of a pH unit. -/
def nist10Table : List Int := [25, 18, 12, 6, 1, -3, -7, -11, -14, -17, -19, -22]

/-- The expression `(float)table[idx] * 0.01f`. -/
def tableEntry (table : List Int) (idx : Int) : ℚ :=
  ((table.getD idx.toNat 0 : Int) : ℚ) * (1 / 100)

/-- The method `getNIST4TempOffset(temp)`. -/
def getNIST4TempOffset (temp : ℚ) : ℚ := tableEntry nist4Table (nistIndex temp)

/-- The method `getNIST7TempOffset(temp)`. -/
def getNIST7TempOffset (temp : ℚ) : ℚ := tableEntry nist7Table (nistIndex temp)

/-- The method `getNIST10TempOffset(temp)`. -/
def getNIST10TempOffset (temp : ℚ) : ℚ := tableEntry nist10Table (nistIndex temp)

/-- The classification of `autoCalibrateProbe`: the nominal standard for a guessed pH. -/
def nominalStandard (initialGuessPh : ℚ) : Nat :=
  if initialGuessPh ≥ 85 / 10 then 10
  else if initialGuessPh ≤ 55 / 10 then 4
  else 7

/-- The temperature adjustment of `autoCalibrateProbe`: the pH handed to `calibrateProbe`. -/
def standardValue (nominalStandardValue : Nat) (temperature : ℚ) : ℚ :=
  if nominalStandardValue = 10 then 10 + getNIST10TempOffset temperature
  else if nominalStandardValue = 4 then 4 + getNIST4TempOffset temperature
  else 7 + getNIST7TempOffset temperature

/-- The method `autoCalibrateProbe(stabilize, temperature)`. -/
def autoCalibrateProbe (env : Env) (fuel : Nat) (p : PhProbe) (stabilize : Bool)
    (temperature : ℚ) (w : World) : Option (Nat × PhProbe × World) :=
  let oldNumSamples := p.numSamples
  let p1 := { p with numSamples := 1 }
  match readPh env fuel p1 false temperature w with
  | none => none
  | some (initialGuessPh, w1) =>
    let p2 := { p1 with numSamples := oldNumSamples }
    let nominalStandardValue := nominalStandard initialGuessPh
    match calibrateProbe env fuel p2 (standardValue nominalStandardValue temperature)
        stabilize temperature w1 with
    | none => none
    | some (res, p3, w2) =>
      if res = 2 then some (0, p3, w2) else some (nominalStandardValue, p3, w2)

/-- The method `calibrateAmpOffset()`. -/
def calibrateAmpOffset (env : Env) (p : PhProbe) (w : World) : Option (PhProbe × World) :=
  match readRaw env p p.numCalibrationSamples w with
  | none => none
  | some (reading, w1) =>
    let voltage := (reading : ℚ) * ADC_FACTOR
    some ({ p with calibrationValues := { p.calibrationValues with ampOffset := voltage } }, w1)

/-- The method `calibrateAmpGain(testVoltage)`. -/
def calibrateAmpGain (env : Env) (p : PhProbe) (testVoltage : ℚ) (w : World) :
    Option (PhProbe × World) :=
  match readRaw env p p.numCalibrationSamples w with
  | none => none
  | some (reading, w1) =>
    let voltage := (reading : ℚ) * ADC_FACTOR - p.calibrationValues.ampOffset
    some ({ p with calibrationValues :=
      { p.calibrationValues with ampGain := voltage / testVoltage } }, w1)

/-- The method `getIdealAmpGain()`. -/
def getIdealAmpGain (p : PhProbe) : ℚ :=
  p.calibrationValues.ampOffset / (58 / 1000 * 7)

/-! ### `readPh` in binary32 -/

/-- The macro `ADC_FACTOR`, `(5.0f / 1024.0f)`, as a `float`. -/
def ADC_FACTOR_Float : FloatValue := FloatValue.div (FloatValue.ofRat 5) (FloatValue.ofRat 1024)

/-- Lines 57 and 58 of `readPh` in binary32:
`((float)adcReading * ADC_FACTOR - ampOffset) / ampGain`. -/
def probeVoltageFloat (cv : CalibrationValues) (adcReading : Nat) : FloatValue :=
  let adcVoltage := FloatValue.mul (FloatValue.ofRat adcReading) ADC_FACTOR_Float
  FloatValue.div (FloatValue.sub adcVoltage (FloatValue.ofRat cv.ampOffset))
    (FloatValue.ofRat cv.ampGain)

/-- The local `C` of `readPh` in binary32: `2.303f*8.314f/96490.0f`. -/
def nernstCFloat : FloatValue :=
  FloatValue.div
    (FloatValue.mul (FloatValue.ofRat (2303 / 1000)) (FloatValue.ofRat (8314 / 1000)))
    (FloatValue.ofRat 96490)

/-- The arithmetic of `readPh` after the reading was taken (lines 57 to 60), every
operation in binary32. -/
def phOfReadingFloat (cv : CalibrationValues) (adcReading : Nat) (temperature : ℚ) :
    FloatValue :=
  FloatValue.add
    (FloatValue.div
      (FloatValue.div
        (FloatValue.div
          (FloatValue.sub (FloatValue.ofRat cv.probeOffset) (probeVoltageFloat cv adcReading))
          (FloatValue.ofRat cv.probeSlope))
        nernstCFloat)
      (FloatValue.add (FloatValue.ofRat temperature) (FloatValue.ofRat (27315 / 100))))
    (FloatValue.ofRat cv.isoelectricPh)

/-- The method `readPh(stabilize, temperature)` with the arithmetic of lines 57 to 60
supplied as `ph`: `ph cv r T` is the `float` that the target computes from the
coefficients `cv`, the reading `r` and the temperature `T`. -/
def readPhVia (ph : CalibrationValues → Nat → ℚ → FloatValue) (env : Env) (fuel : Nat)
    (p : PhProbe) (stabilize : Bool) (temperature : ℚ) (w : World) :
    Option (FloatValue × World) :=
  match takeReading env fuel p stabilize p.numSamples w with
  | none => none
  | some (adcReading, w1) => some (ph p.calibrationValues adcReading temperature, w1)

/-- The classification of `autoCalibrateProbe` on a `float` guess, with the comparisons
`>= 8.5f` and `<= 5.5f` of the source. -/
def nominalStandardFloat (initialGuessPh : FloatValue) : Nat :=
  if FloatValue.ge initialGuessPh (FloatValue.ofRat (85 / 10)) then 10
  else if FloatValue.le initialGuessPh (FloatValue.ofRat (55 / 10)) then 4
  else 7

/-- The method `autoCalibrateProbe(stabilize, temperature)` with the `float` arithmetic of
its `readPh` call supplied as `ph`. -/
def autoCalibrateProbeVia (ph : CalibrationValues → Nat → ℚ → FloatValue) (env : Env)
    (fuel : Nat) (p : PhProbe) (stabilize : Bool) (temperature : ℚ) (w : World) :
    Option (Nat × PhProbe × World) :=
  let oldNumSamples := p.numSamples
  let p1 := { p with numSamples := 1 }
  match readPhVia ph env fuel p1 false temperature w with
  | none => none
  | some (initialGuessPh, w1) =>
    let p2 := { p1 with numSamples := oldNumSamples }
    let nominalStandardValue := nominalStandardFloat initialGuessPh
    match calibrateProbe env fuel p2 (standardValue nominalStandardValue temperature)
        stabilize temperature w1 with
    | none => none
    | some (res, p3, w2) =>
      if res = 2 then some (0, p3, w2) else some (nominalStandardValue, p3, w2)

/-! ### Vocabulary for the statements -/

/-- Sum of the `n` ADC samples number `k`, `k + 1`, ..., `k + n - 1` of pin `pin`. -/
def sampleSum (env : Env) (pin k n : Nat) : Nat :=
  ∑ j in Finset.range n, env.adc pin (k + j)

/-- The truncated 16-bit average that `readRaw(samples)` computes from the `samples`
ADC samples starting at sample number `k`. -/
def rawAt (env : Env) (p : PhProbe) (samples k : Nat) : Nat :=
  (readRawLoop env p samples samples 0 0 { reads := k }).1 / samples

/-- The world after one `readRaw(samples)`: `samples` more ADC reads and a
`delay(sampleInterval)` between consecutive samples. -/
def afterRead (p : PhProbe) (samples : Nat) (w : World) : World :=
  { w with reads := w.reads + samples,
           delays := w.delays ++ List.replicate (samples - 1) p.sampleInterval }

/-- Two probe states with the same pin, sample interval and stabilisation delay. -/
def SameConfig (p q : PhProbe) : Prop :=
  q.probePin = p.probePin ∧ q.sampleInterval = p.sampleInterval ∧
    q.stabilizeDelaySecs = p.stabilizeDelaySecs

/-- The world after one loop iteration of `readStableValue` that does not return: one
`readRaw(samples)` and one call of `millis`. -/
def afterCycle (env : Env) (p : PhProbe) (samples : Nat) (w : World) : World :=
  (millis env (afterRead p samples w)).2

/-- The value of `millis()` read in the loop iteration that starts in world `w`. -/
def cycleTime (env : Env) (p : PhProbe) (samples : Nat) (w : World) : Nat :=
  (millis env (afterRead p samples w)).1

/-- The direction that `readStableValue` assigns to a changed reading. -/
def directionOf (value lastValue : Nat) : Int :=
  if value > lastValue then 1 else -1


/-- The expression assigned to `slope` in `calibrateProbe`, for the pending point
`(lastCalReading, lastCalPh, lastCalTemp)` and the new point `(calReading, pH, temperature)`. -/
def twoPointSlope (cv : CalibrationValues) (lastCalReading : Nat) (lastCalPh lastCalTemp : ℚ)
    (calReading : Nat) (pH temperature : ℚ) : ℚ :=
  (probeVoltage cv lastCalReading - probeVoltage cv calReading) / nernstC /
    ((temperature + 27315 / 100) * (pH - cv.isoelectricPh)
      - (lastCalTemp + 27315 / 100) * (lastCalPh - cv.isoelectricPh))

/-- The expression assigned to `offset` in `calibrateProbe`. -/
def twoPointOffset (cv : CalibrationValues) (lastCalReading : Nat) (lastCalPh lastCalTemp : ℚ)
    (calReading : Nat) (pH temperature : ℚ) : ℚ :=
  probeVoltage cv calReading
    + twoPointSlope cv lastCalReading lastCalPh lastCalTemp calReading pH temperature
      * nernstC * (temperature + 27315 / 100) * (pH - cv.isoelectricPh)

/-- The single-sample pH guess of `autoCalibrateProbe`: the `readPh` formula on the one
raw ADC sample read first. -/
def initialGuessPh (env : Env) (p : PhProbe) (temperature : ℚ) (w : World) : ℚ :=
  phOfReading p.calibrationValues (env.adc p.probePin w.reads % 65536) temperature

/-- The single-sample guess of `autoCalibrateProbe` as the `float` that the arithmetic
`ph` yields on the one raw ADC sample read first. -/
def initialGuessVia (ph : CalibrationValues → Nat → ℚ → FloatValue) (env : Env)
    (p : PhProbe) (temperature : ℚ) (w : World) : FloatValue :=
  ph p.calibrationValues (env.adc p.probePin w.reads % 65536) temperature

/-- An environment for examples: every ADC sample is `v`, the clock advances by
`tick` milliseconds between two calls of `millis`, the target has 16-bit `int`. -/
def constEnv (v tick : Nat) : Env :=
  { adc := fun _ _ => v, clock := fun k => k * tick, intModulus := 65536 }

/-- An environment for examples: the `k`-th ADC sample is `xs[k]` (the last element for
ever after), the clock reads `ts[k]` at the `k`-th call of `millis`, 16-bit `int`. -/
def listEnv (xs ts : List Nat) : Env :=
  { adc := fun _ k => xs.getD k (xs.getLastD 0),
    clock := fun k => ts.getD k (ts.getLastD 0),
    intModulus := 65536 }

end PhProbe

/-! ## Auxiliary lemmas on sampling -/

namespace PhProbe

theorem analogRead_reads (env : Env) (pin : Nat) (w : World) :
    (analogRead env pin w).2.reads = w.reads + 1 := rfl

theorem readRawLoop_fst (env : Env) (p : PhProbe) (samples : Nat) :
    ∀ (n i total : Nat) (w : World), total < 65536 →
      (readRawLoop env p samples n i total w).1
        = (total + sampleSum env p.probePin w.reads n) % 65536 := by
  intro n
  induction n with
  | zero =>
    intro i total w ht
    simp [readRawLoop, sampleSum, Nat.mod_eq_of_lt ht]
  | succ n ih =>
    intro i total w ht
    have hlt : (total + (analogRead env p.probePin w).1) % 65536 < 65536 :=
      Nat.mod_lt _ (by norm_num)
    have hreads : (if i ≠ samples - 1 then delay p.sampleInterval (analogRead env p.probePin w).2
        else (analogRead env p.probePin w).2).reads = w.reads + 1 := by
      split <;> rfl
    simp only [readRawLoop]
    rw [ih _ _ _ hlt, hreads]
    have hsum : sampleSum env p.probePin w.reads (n + 1)
        = sampleSum env p.probePin (w.reads + 1) n + env.adc p.probePin w.reads := by
      unfold sampleSum
      rw [Finset.sum_range_succ']
      simp [Nat.add_assoc, Nat.add_comm 1]
    rw [hsum]
    simp only [analogRead]
    omega

theorem readRawLoop_snd (env : Env) (p : PhProbe) (samples : Nat) :
    ∀ (n i total : Nat) (w : World), i + n = samples →
      (readRawLoop env p samples n i total w).2
        = { w with reads := w.reads + n,
                   delays := w.delays ++ List.replicate (n - 1) p.sampleInterval } := by
  intro n
  induction n with
  | zero =>
    intro i total w _
    simp [readRawLoop]
  | succ n ih =>
    intro i total w hi
    simp only [readRawLoop]
    rw [ih _ _ _ (by omega)]
    by_cases hn : n = 0
    · subst hn
      have : i = samples - 1 := by omega
      simp [this, analogRead]
    · have hne : i ≠ samples - 1 := by omega
      obtain ⟨m, rfl⟩ := Nat.exists_eq_succ_of_ne_zero hn
      simp [hne, analogRead, delay, Nat.add_assoc, Nat.add_comm 1, List.replicate_succ]

/-- The average computed by `readRaw` is the sum of the samples reduced modulo `2 ^ 16`
(the `uint16_t` accumulator) and divided by the sample count. -/
theorem rawAt_eq (env : Env) (p : PhProbe) (samples k : Nat) :
    rawAt env p samples k = sampleSum env p.probePin k samples % 65536 / samples := by
  unfold rawAt
  rw [readRawLoop_fst env p samples samples 0 0 _ (by norm_num)]
  simp

/-- One call of `readRaw` with a nonzero sample count always returns: its value is
`rawAt` at the current sample number and the world advances by `afterRead`. -/
theorem readRaw_eq (env : Env) (p : PhProbe) (samples : Nat) (w : World) (hs : samples ≠ 0) :
    readRaw env p samples w = some (rawAt env p samples w.reads, afterRead p samples w) := by
  unfold readRaw
  rw [if_neg hs]
  simp only [Option.some.injEq, Prod.mk.injEq]
  constructor
  · rw [rawAt_eq, readRawLoop_fst env p samples samples 0 0 _ (by norm_num)]
    simp
  · rw [readRawLoop_snd env p samples samples 0 0 w (by omega)]
    rfl

end PhProbe

/-! ## Sampling does not depend on the calibration state; status of `calibrateWith` -/

namespace PhProbe

theorem readRawLoop_congr (env : Env) (p q : PhProbe) (h : SameConfig p q) (samples : Nat) :
    ∀ (n i total : Nat) (w : World),
      readRawLoop env q samples n i total w = readRawLoop env p samples n i total w := by
  obtain ⟨h1, h2, _⟩ := h
  intro n
  induction n with
  | zero => intro i total w; rfl
  | succ n ih =>
    intro i total w
    simp only [readRawLoop, h1, h2, ih]

theorem readRaw_congr (env : Env) (p q : PhProbe) (h : SameConfig p q) (samples : Nat)
    (w : World) : readRaw env q samples w = readRaw env p samples w := by
  unfold readRaw
  rw [readRawLoop_congr env p q h]

theorem stabilizeDelayMs_congr (env : Env) (p q : PhProbe) (h : SameConfig p q) :
    stabilizeDelayMs env q = stabilizeDelayMs env p := by
  unfold stabilizeDelayMs
  rw [h.2.2]

theorem readStableValueLoop_congr (env : Env) (p q : PhProbe) (h : SameConfig p q)
    (samples : Nat) :
    ∀ (fuel endTime : Nat) (lastDirection : Int) (lastValue : Nat) (w : World),
      readStableValueLoop env q samples fuel endTime lastDirection lastValue w
        = readStableValueLoop env p samples fuel endTime lastDirection lastValue w := by
  intro fuel
  induction fuel with
  | zero => intro endTime lastDirection lastValue w; rfl
  | succ fuel ih =>
    intro endTime lastDirection lastValue w
    simp only [readStableValueLoop, readRaw_congr env p q h, stabilizeDelayMs_congr env p q h, ih]

theorem takeReading_congr (env : Env) (fuel : Nat) (p q : PhProbe) (h : SameConfig p q)
    (stabilize : Bool) (n : Nat) (w : World) :
    takeReading env fuel q stabilize n w = takeReading env fuel p stabilize n w := by
  unfold takeReading readStableValue
  rw [readRaw_congr env p q h, stabilizeDelayMs_congr env p q h,
    readStableValueLoop_congr env p q h]

/-- The status of `calibrateWith` as a function of the reading and the pending reading. -/
theorem calibrateWith_status (p : PhProbe) (r : Nat) (pH temperature : ℚ) :
    (calibrateWith p r pH temperature).1 =
      if r = 0 then 2
      else if p.lastCalReading = 0 then 1
      else if |(r : ℤ) - (p.lastCalReading : ℤ)| < 50 then 2 else 0 := by
  unfold calibrateWith
  by_cases h0 : r = 0
  · simp [h0]
  by_cases h1 : p.lastCalReading = 0
  · simp [h0, h1]
  simp only [h0, h1, if_false]
  by_cases h2 : |(r : ℤ) - (p.lastCalReading : ℤ)| < 50
  · rw [if_pos h2, if_pos]
    rw [abs_lt] at h2
    omega
  · rw [if_neg h2, if_neg]
    rw [abs_lt] at h2
    omega


theorem nernstC_ne_zero : nernstC ≠ 0 := by
  unfold nernstC
  norm_num

theorem nernstC_pos : 0 < nernstC := by
  unfold nernstC
  norm_num

/-- The slope formula of `calibrateProbe` applied to two points synthesised with slope `s`
and offset `o` gives back `s`. -/
theorem slope_recover (V1 V2 o s C K1 K2 iso : ℚ) (hs : s ≠ 0) (hC : C ≠ 0) (hK1 : K1 ≠ 0)
    (hK2 : K2 ≠ 0) (hV : V1 ≠ V2) :
    (V1 - V2) / C / (K2 * (((o - V2) / s / C / K2 + iso) - iso)
      - K1 * (((o - V1) / s / C / K1 + iso) - iso)) = s := by
  have e2 : K2 * (((o - V2) / s / C / K2 + iso) - iso) = (o - V2) / (s * C) := by
    field_simp
    ring
  have e1 : K1 * (((o - V1) / s / C / K1 + iso) - iso) = (o - V1) / (s * C) := by
    field_simp
    ring
  have hd : (o - V2) / (s * C) - (o - V1) / (s * C) = (V1 - V2) / (s * C) := by
    field_simp
  have hV' : V1 - V2 ≠ 0 := sub_ne_zero.mpr hV
  rw [e1, e2, hd]
  field_simp
  ring

/-- The offset formula of `calibrateProbe` at the recovered slope gives back `o`. -/
theorem offset_recover (V2 o s C K2 iso : ℚ) (hs : s ≠ 0) (hC : C ≠ 0) (hK2 : K2 ≠ 0) :
    V2 + s * C * K2 * (((o - V2) / s / C / K2 + iso) - iso) = o := by
  field_simp
  ring

theorem probeVoltage_injective (cv : CalibrationValues) (hg : cv.ampGain ≠ 0) (r1 r2 : Nat)
    (h : r1 ≠ r2) : probeVoltage cv r1 ≠ probeVoltage cv r2 := by
  unfold probeVoltage ADC_FACTOR
  intro heq
  apply h
  field_simp at heq
  exact_mod_cast heq


/-- After the reading is taken, `calibrateProbe` is `calibrateWith` on that reading. -/
theorem calibrateProbe_eq (env : Env) (fuel : Nat) (p : PhProbe) (pH : ℚ) (stabilize : Bool)
    (temperature : ℚ) (w w1 : World) (r : Nat)
    (hread : takeReading env fuel p stabilize p.numCalibrationSamples w = some (r, w1)) :
    calibrateProbe env fuel p pH stabilize temperature w
      = some ((calibrateWith p r pH temperature).1, (calibrateWith p r pH temperature).2, w1) := by
  simp [calibrateProbe, hread]

/-- Sentinel reading: status 2 and the pending point is cleared. -/
theorem calibrateWith_zero (p : PhProbe) (pH temperature : ℚ) :
    calibrateWith p 0 pH temperature = (2, resetCalibrateProbe p) := by
  simp [calibrateWith]

/-- First point: status 1 and the point is stored. -/
theorem calibrateWith_first (p : PhProbe) (r : Nat) (pH temperature : ℚ) (hr : r ≠ 0)
    (hp : p.lastCalReading = 0) :
    calibrateWith p r pH temperature
      = (1, { p with lastCalReading := r, lastCalPh := pH, lastCalTemp := temperature }) := by
  simp [calibrateWith, hr, hp]

/-- Second point too close to the pending one: status 2 and the pending point is cleared. -/
theorem calibrateWith_near (p : PhProbe) (r : Nat) (pH temperature : ℚ) (hr : r ≠ 0)
    (hp : p.lastCalReading ≠ 0) (hnear : |(r : ℤ) - (p.lastCalReading : ℤ)| < 50) :
    calibrateWith p r pH temperature = (2, resetCalibrateProbe p) := by
  have h : (r ≥ p.lastCalReading ∧ r - p.lastCalReading < 50) ∨
      (r < p.lastCalReading ∧ p.lastCalReading - r < 50) := by
    rw [abs_lt] at hnear
    omega
  simp [calibrateWith, hr, hp, h]

/-- Second point far enough from the pending one: status 0, slope and offset are
overwritten with the two-point solution and the pending point is cleared. -/
theorem calibrateWith_far (p : PhProbe) (r : Nat) (pH temperature : ℚ) (hr : r ≠ 0)
    (hp : p.lastCalReading ≠ 0) (hfar : 50 ≤ |(r : ℤ) - (p.lastCalReading : ℤ)|) :
    calibrateWith p r pH temperature
      = (0, resetCalibrateProbe { p with calibrationValues :=
          { p.calibrationValues with
            probeSlope :=
              (probeVoltage p.calibrationValues p.lastCalReading
                  - probeVoltage p.calibrationValues r) / nernstC /
                ((temperature + 27315 / 100) * (pH - p.calibrationValues.isoelectricPh)
                  - (p.lastCalTemp + 27315 / 100)
                    * (p.lastCalPh - p.calibrationValues.isoelectricPh)),
            probeOffset :=
              probeVoltage p.calibrationValues r
                + (probeVoltage p.calibrationValues p.lastCalReading
                    - probeVoltage p.calibrationValues r) / nernstC /
                  ((temperature + 27315 / 100) * (pH - p.calibrationValues.isoelectricPh)
                    - (p.lastCalTemp + 27315 / 100)
                      * (p.lastCalPh - p.calibrationValues.isoelectricPh))
                  * nernstC * (temperature + 27315 / 100)
                  * (pH - p.calibrationValues.isoelectricPh) } }) := by
  have h : ¬ ((r ≥ p.lastCalReading ∧ r - p.lastCalReading < 50) ∨
      (r < p.lastCalReading ∧ p.lastCalReading - r < 50)) := by
    rw [le_abs] at hfar
    omega
  simp only [calibrateWith, hr, hp, h, if_false]


theorem afterCycle_reads (env : Env) (p : PhProbe) (samples : Nat) (w : World) :
    (afterCycle env p samples w).reads = w.reads + samples := rfl

theorem afterCycle_clockReads (env : Env) (p : PhProbe) (samples : Nat) (w : World) :
    (afterCycle env p samples w).clockReads = w.clockReads + 1 := rfl

theorem afterCycle_delays (env : Env) (p : PhProbe) (samples : Nat) (w : World) :
    (afterCycle env p samples w).delays
      = w.delays ++ List.replicate (samples - 1) p.sampleInterval := rfl

theorem cycleTime_eq (env : Env) (p : PhProbe) (samples : Nat) (w : World) :
    cycleTime env p samples w = env.clock w.clockReads % 2 ^ 32 := rfl

/-- Loop iteration of `readStableValue` on an unchanged reading: return at the deadline,
otherwise iterate with the same state. -/
theorem readStableValueLoop_same (env : Env) (p : PhProbe) (samples fuel endTime : Nat)
    (lastDirection : Int) (lastValue : Nat) (w : World) (hs : samples ≠ 0)
    (hv : rawAt env p samples w.reads = lastValue) :
    readStableValueLoop env p samples (fuel + 1) endTime lastDirection lastValue w
      = if cycleTime env p samples w ≥ endTime then
          some (lastValue, afterCycle env p samples w)
        else readStableValueLoop env p samples fuel endTime lastDirection lastValue
          (afterCycle env p samples w) := by
  simp only [readStableValueLoop, readRaw_eq env p samples w hs, hv, if_true]
  rfl

/-- Loop iteration of `readStableValue` on a changed reading that is not a reversal: new
deadline, the direction is recorded unless the previous value was the placeholder 0. -/
theorem readStableValueLoop_change (env : Env) (p : PhProbe) (samples fuel endTime : Nat)
    (lastDirection : Int) (lastValue : Nat) (w : World) (hs : samples ≠ 0)
    (hv : rawAt env p samples w.reads ≠ lastValue)
    (hd : ¬ (lastDirection ≠ 0 ∧
      directionOf (rawAt env p samples w.reads) lastValue ≠ lastDirection)) :
    readStableValueLoop env p samples (fuel + 1) endTime lastDirection lastValue w
      = readStableValueLoop env p samples fuel
          ((cycleTime env p samples w + stabilizeDelayMs env p) % 2 ^ 32)
          (if lastValue ≠ 0 then directionOf (rawAt env p samples w.reads) lastValue
            else lastDirection)
          (rawAt env p samples w.reads) (afterCycle env p samples w) := by
  unfold directionOf at hd
  simp only [readStableValueLoop, readRaw_eq env p samples w hs, hv, if_false, hd]
  rfl

/-- Loop iteration of `readStableValue` on a reversal: one `delay` of the stabilisation
time, then the next `readRaw` is returned. -/
theorem readStableValueLoop_reversal (env : Env) (p : PhProbe) (samples fuel endTime : Nat)
    (lastDirection : Int) (lastValue : Nat) (w : World) (hs : samples ≠ 0)
    (hv : rawAt env p samples w.reads ≠ lastValue)
    (hd : lastDirection ≠ 0 ∧
      directionOf (rawAt env p samples w.reads) lastValue ≠ lastDirection) :
    readStableValueLoop env p samples (fuel + 1) endTime lastDirection lastValue w
      = some (rawAt env p samples (w.reads + samples),
          afterRead p samples (delay (stabilizeDelayMs env p) (afterCycle env p samples w))) := by
  unfold directionOf at hd
  simp only [readStableValueLoop, readRaw_eq env p samples w hs, hv, if_false]
  rw [if_pos hd, readRaw_eq env p samples _ hs]
  rfl


/-- The table index written out: the `int8_t` conversion of `temp / 5 - 1`, clamped. -/
theorem nistIndex_eq (temp : ℚ) :
    nistIndex temp =
      if toInt8 (temp / 5 - 1) < 0 then 0
      else if toInt8 (temp / 5 - 1) ≥ 12 then 11 else toInt8 (temp / 5 - 1) := by
  unfold nistIndex
  norm_num

/-- The computed table index always lies in `[0, 11]`. -/
theorem nistIndex_range (temp : ℚ) : 0 ≤ nistIndex temp ∧ nistIndex temp ≤ 11 := by
  rw [nistIndex_eq]
  split
  · exact ⟨le_refl _, by norm_num⟩
  · split
    · exact ⟨by norm_num, le_refl _⟩
    · constructor <;> omega

/-- Within the range of `int8_t` the conversion is truncation toward zero. -/
theorem toInt8_of_nonneg (x : ℚ) (h0 : 0 ≤ x) (h1 : x < 128) : toInt8 x = ⌊x⌋ := by
  unfold toInt8
  simp only [if_pos h0]
  have hlo : 0 ≤ ⌊x⌋ := Int.floor_nonneg.mpr h0
  have hhi : ⌊x⌋ < 128 := Int.floor_lt.mpr (by exact_mod_cast h1)
  omega

theorem toInt8_of_neg (x : ℚ) (h0 : x < 0) (h1 : -129 < x) : toInt8 x = ⌈x⌉ := by
  unfold toInt8
  simp only [if_neg (not_le.mpr h0)]
  have hhi : ⌈x⌉ ≤ 0 := Int.ceil_le.mpr (by exact_mod_cast h0.le)
  have hlo : -129 < ⌈x⌉ := Int.lt_ceil.mpr (by exact_mod_cast h1)
  omega

/-- Below 5 degrees (and above -640, where `temp / 5 - 1` still fits `int8_t`) the index
is 0. -/
theorem nistIndex_below (temp : ℚ) (hlo : -640 < temp) (hhi : temp < 5) :
    nistIndex temp = 0 := by
  have hx0 : temp / 5 - 1 < 0 := by linarith
  have hx1 : -129 < temp / 5 - 1 := by linarith
  have hc : ⌈temp / 5 - 1⌉ ≤ 0 := Int.ceil_le.mpr (by exact_mod_cast hx0.le)
  rw [nistIndex_eq, toInt8_of_neg _ hx0 hx1]
  split
  · rfl
  · split <;> omega

/-- From 60 degrees on (and below 645, where `temp / 5 - 1` still fits `int8_t`) the index
is 11. -/
theorem nistIndex_above (temp : ℚ) (hlo : 60 ≤ temp) (hhi : temp < 645) :
    nistIndex temp = 11 := by
  have hx0 : (11 : ℚ) ≤ temp / 5 - 1 := by linarith
  have hx1 : temp / 5 - 1 < 128 := by linarith
  have hf : 11 ≤ ⌊temp / 5 - 1⌋ := Int.le_floor.mpr (by exact_mod_cast hx0)
  rw [nistIndex_eq, toInt8_of_nonneg _ (by linarith) hx1]
  split
  · omega
  · split <;> omega

/-- On an integral value the conversion keeps the low 8 bits. -/
theorem toInt8_intCast (z : ℤ) : toInt8 ((z : ℤ) : ℚ) = (z + 128) % 256 - 128 := by
  unfold toInt8
  split
  · rw [Int.floor_intCast]
  · rw [Int.ceil_intCast]

theorem nistIndex_700 : nistIndex 700 = 0 := by
  have h : ((700 : ℚ) / 5 - 1) = ((139 : ℤ) : ℚ) := by norm_num
  rw [nistIndex_eq, h, toInt8_intCast]
  decide

theorem nistIndex_neg640 : nistIndex (-640) = 11 := by
  have h : ((-640 : ℚ) / 5 - 1) = ((-129 : ℤ) : ℚ) := by norm_num
  rw [nistIndex_eq, h, toInt8_intCast]
  decide


/-- After the reading is taken, `readPh` is the pH formula on that reading. -/
theorem readPh_eq (env : Env) (fuel : Nat) (p : PhProbe) (stabilize : Bool) (temperature : ℚ)
    (w w1 : World) (r : Nat)
    (hread : takeReading env fuel p stabilize p.numSamples w = some (r, w1)) :
    readPh env fuel p stabilize temperature w
      = some (phOfReading p.calibrationValues r temperature, w1) := by
  simp [readPh, hread]

/-- For positive gain and slope and a temperature above absolute zero the pH formula is
strictly decreasing in the reading. -/
theorem phOfReading_strictAnti (cv : CalibrationValues) (temperature : ℚ) (r1 r2 : Nat)
    (hg : 0 < cv.ampGain) (hs : 0 < cv.probeSlope) (hT : -(27315 / 100) < temperature)
    (hr : r1 < r2) :
    phOfReading cv r2 temperature < phOfReading cv r1 temperature := by
  have hK : 0 < temperature + 27315 / 100 := by linarith
  have hr' : (r1 : ℚ) < (r2 : ℚ) := by exact_mod_cast hr
  have hV : probeVoltage cv r1 < probeVoltage cv r2 := by
    unfold probeVoltage ADC_FACTOR
    apply (div_lt_div_iff_of_pos_right hg).mpr
    linarith
  unfold phOfReading
  have h1 : (cv.probeOffset - probeVoltage cv r2) / cv.probeSlope
      < (cv.probeOffset - probeVoltage cv r1) / cv.probeSlope :=
    (div_lt_div_iff_of_pos_right hs).mpr (by linarith)
  have h2 := (div_lt_div_iff_of_pos_right nernstC_pos).mpr h1
  have h3 := (div_lt_div_iff_of_pos_right hK).mpr h2
  linarith


/-- A result of `calibrateProbe` comes from a reading and `calibrateWith` on it. -/
theorem calibrateProbe_inv (env : Env) (fuel : Nat) (p : PhProbe) (pH : ℚ) (stabilize : Bool)
    (temperature : ℚ) (w : World) (st : Nat) (p1 : PhProbe) (w1 : World)
    (h : calibrateProbe env fuel p pH stabilize temperature w = some (st, p1, w1)) :
    ∃ r, (calibrateWith p r pH temperature).1 = st ∧
      (calibrateWith p r pH temperature).2 = p1 ∧
      takeReading env fuel p stabilize p.numCalibrationSamples w = some (r, w1) := by
  unfold calibrateProbe at h
  cases hread : takeReading env fuel p stabilize p.numCalibrationSamples w with
  | none => simp [hread] at h
  | some rw1 =>
    obtain ⟨r, w2⟩ := rw1
    simp only [hread, Option.some.injEq, Prod.mk.injEq] at h
    obtain ⟨h1, h2, h3⟩ := h
    subst h3
    exact ⟨r, h1, h2, rfl⟩


/-- The state written by a completed two-point calibration, with the named formulas. -/
theorem calibrateWith_far_fields (p : PhProbe) (r : Nat) (pH temperature : ℚ) (hr : r ≠ 0)
    (hp : p.lastCalReading ≠ 0) (hfar : 50 ≤ |(r : ℤ) - (p.lastCalReading : ℤ)|) :
    (calibrateWith p r pH temperature).1 = 0 ∧
    (calibrateWith p r pH temperature).2.calibrationValues.probeSlope
      = twoPointSlope p.calibrationValues p.lastCalReading p.lastCalPh p.lastCalTemp
          r pH temperature ∧
    (calibrateWith p r pH temperature).2.calibrationValues.probeOffset
      = twoPointOffset p.calibrationValues p.lastCalReading p.lastCalPh p.lastCalTemp
          r pH temperature ∧
    (calibrateWith p r pH temperature).2.calibrationValues.ampGain
      = p.calibrationValues.ampGain ∧
    (calibrateWith p r pH temperature).2.calibrationValues.ampOffset
      = p.calibrationValues.ampOffset ∧
    (calibrateWith p r pH temperature).2.calibrationValues.isoelectricPh
      = p.calibrationValues.isoelectricPh ∧
    (calibrateWith p r pH temperature).2.lastCalReading = 0 := by
  rw [calibrateWith_far p r pH temperature hr hp hfar]
  exact ⟨rfl, rfl, rfl, rfl, rfl, rfl, rfl⟩

/-- Unless the status is 0, `calibrateWith` leaves the calibration coefficients alone. -/
theorem calibrateWith_frame (p : PhProbe) (r : Nat) (pH temperature : ℚ)
    (hst : (calibrateWith p r pH temperature).1 ≠ 0) :
    (calibrateWith p r pH temperature).2.calibrationValues = p.calibrationValues := by
  by_cases h0 : r = 0
  · subst h0
    rw [calibrateWith_zero]
    rfl
  by_cases hp : p.lastCalReading = 0
  · rw [calibrateWith_first p r pH temperature h0 hp]
  by_cases hn : |(r : ℤ) - (p.lastCalReading : ℤ)| < 50
  · rw [calibrateWith_near p r pH temperature h0 hp hn]
    rfl
  · rw [calibrateWith_status] at hst
    simp [h0, hp, hn] at hst

/-- Status 0 of `calibrateWith` means a nonzero reading at least 50 counts away from a
pending nonzero reading. -/
theorem calibrateWith_status_zero (p : PhProbe) (r : Nat) (pH temperature : ℚ)
    (hst : (calibrateWith p r pH temperature).1 = 0) :
    r ≠ 0 ∧ p.lastCalReading ≠ 0 ∧ 50 ≤ |(r : ℤ) - (p.lastCalReading : ℤ)| := by
  rw [calibrateWith_status] at hst
  by_cases h0 : r = 0
  · simp [h0] at hst
  by_cases hp : p.lastCalReading = 0
  · simp [h0, hp] at hst
  by_cases hn : |(r : ℤ) - (p.lastCalReading : ℤ)| < 50
  · simp [h0, hp, hn] at hst
  · exact ⟨h0, hp, not_lt.mp hn⟩

/-- One-sample reading: `readRaw(1)` returns the next ADC sample (as a `uint16_t`). -/
theorem rawAt_one (env : Env) (p : PhProbe) (k : Nat) :
    rawAt env p 1 k = env.adc p.probePin k % 65536 := by
  rw [rawAt_eq]
  simp [sampleSum]

/-- The method `autoCalibrateProbe` is one single-sample `readRaw`, the classification of
the guess, and `calibrateProbe` on the unchanged probe state with the adjusted standard. -/
theorem autoCalibrateProbe_eq (env : Env) (fuel : Nat) (p : PhProbe) (stabilize : Bool)
    (temperature : ℚ) (w : World) :
    autoCalibrateProbe env fuel p stabilize temperature w =
      match calibrateProbe env fuel p
          (standardValue (nominalStandard (initialGuessPh env p temperature w)) temperature)
          stabilize temperature (afterRead p 1 w) with
      | none => none
      | some (res, p3, w2) =>
        if res = 2 then some (0, p3, w2)
        else some (nominalStandard (initialGuessPh env p temperature w), p3, w2) := by
  have hread : takeReading env fuel { p with numSamples := 1 } false 1 w
      = some (env.adc p.probePin w.reads % 65536, afterRead p 1 w) := by
    unfold takeReading
    simp only [Bool.false_eq_true, if_false]
    rw [readRaw_eq env _ 1 w (by norm_num), rawAt_one]
    rfl
  unfold autoCalibrateProbe readPh
  simp only [hread]
  rfl


/-- With at least one calibration sample `calibrateAmpOffset` returns: it stores the
voltage of the averaged reading as `ampOffset` and changes nothing else. -/
theorem calibrateAmpOffset_eq (env : Env) (p : PhProbe) (w : World)
    (hs : p.numCalibrationSamples ≠ 0) :
    calibrateAmpOffset env p w
      = some ({ p with calibrationValues := { p.calibrationValues with
                  ampOffset := (rawAt env p p.numCalibrationSamples w.reads : ℚ) * ADC_FACTOR } },
              afterRead p p.numCalibrationSamples w) := by
  unfold calibrateAmpOffset
  rw [readRaw_eq env p _ w hs]

/-- With at least one calibration sample `calibrateAmpGain` returns: it stores
`(voltage - ampOffset) / testVoltage` as `ampGain` and changes nothing else. -/
theorem calibrateAmpGain_eq (env : Env) (p : PhProbe) (testVoltage : ℚ) (w : World)
    (hs : p.numCalibrationSamples ≠ 0) :
    calibrateAmpGain env p testVoltage w
      = some ({ p with calibrationValues := { p.calibrationValues with
                  ampGain := ((rawAt env p p.numCalibrationSamples w.reads : ℚ) * ADC_FACTOR
                    - p.calibrationValues.ampOffset) / testVoltage } },
              afterRead p p.numCalibrationSamples w) := by
  unfold calibrateAmpGain
  rw [readRaw_eq env p _ w hs]

/-- With a sample count of 0 `readRaw` has no result (division by zero in the source). -/
theorem readRaw_zero (env : Env) (p : PhProbe) (w : World) : readRaw env p 0 w = none := rfl

/-- A result of `autoCalibrateProbe` comes from a result of the delegated `calibrateProbe`. -/
theorem autoCalibrateProbe_inv (env : Env) (fuel : Nat) (p : PhProbe) (stabilize : Bool)
    (temperature : ℚ) (w : World) (res : Nat) (p1 : PhProbe) (w2 : World)
    (h : autoCalibrateProbe env fuel p stabilize temperature w = some (res, p1, w2)) :
    ∃ st, calibrateProbe env fuel p
        (standardValue (nominalStandard (initialGuessPh env p temperature w)) temperature)
        stabilize temperature (afterRead p 1 w) = some (st, p1, w2) ∧
      res = if st = 2 then 0 else nominalStandard (initialGuessPh env p temperature w) := by
  rw [autoCalibrateProbe_eq] at h
  cases hc : calibrateProbe env fuel p
      (standardValue (nominalStandard (initialGuessPh env p temperature w)) temperature)
      stabilize temperature (afterRead p 1 w) with
  | none => simp [hc] at h
  | some x =>
    obtain ⟨st, p3, w3⟩ := x
    simp only [hc] at h
    by_cases h2 : st = 2
    · simp only [h2, if_true, Option.some.injEq, Prod.mk.injEq] at h
      obtain ⟨hr, hp, hw⟩ := h
      subst hp hw
      exact ⟨st, by rw [h2], by rw [if_pos h2, hr]⟩
    · simp only [h2, if_false, Option.some.injEq, Prod.mk.injEq] at h
      obtain ⟨hr, hp, hw⟩ := h
      subst hp hw
      exact ⟨st, rfl, by rw [if_neg h2, hr]⟩

/-- The nominal standard is 10, 4 or 7, and never 0. -/
theorem nominalStandard_cases (g : ℚ) :
    (nominalStandard g = 10 ↔ 85 / 10 ≤ g) ∧
    (nominalStandard g = 4 ↔ g ≤ 55 / 10) ∧
    (nominalStandard g = 7 ↔ 55 / 10 < g ∧ g < 85 / 10) := by
  unfold nominalStandard
  by_cases h1 : g ≥ 85 / 10
  · have h2 : ¬ g ≤ 55 / 10 := by
      intro h
      have : (85 : ℚ) / 10 ≤ 55 / 10 := le_trans h1 h
      norm_num at this
    have h3 : ¬ g < 85 / 10 := not_lt.mpr h1
    simp [h1, h2, h3]
  · by_cases h2 : g ≤ 55 / 10
    · have h3 : ¬ (55 / 10 < g) := not_lt.mpr h2
      have h1' : ¬ (85 / 10 ≤ g) := h1
      simp [h1, h1', h2, h3]
    · have h1' : ¬ (85 / 10 ≤ g) := h1
      have h4 : g < 85 / 10 := not_le.mp h1
      have h5 : 55 / 10 < g := not_le.mp h2
      simp [h1, h1', h2, h4, h5]


/-- The first entries of the three tables, as returned values. -/
theorem tableEntry_first :
    tableEntry nist4Table 0 = 0 ∧ tableEntry nist7Table 0 = 9 / 100 ∧
    tableEntry nist10Table 0 = 25 / 100 := by
  have h4 : nist4Table.getD (Int.toNat 0) 0 = 0 := by decide
  have h7 : nist7Table.getD (Int.toNat 0) 0 = 9 := by decide
  have h10 : nist10Table.getD (Int.toNat 0) 0 = 25 := by decide
  unfold tableEntry
  rw [h4, h7, h10]
  norm_num

/-- The last entries of the three tables, as returned values. -/
theorem tableEntry_last :
    tableEntry nist4Table 11 = 9 / 100 ∧ tableEntry nist7Table 11 = -3 / 100 ∧
    tableEntry nist10Table 11 = -22 / 100 := by
  have h4 : nist4Table.getD (Int.toNat 11) 0 = 9 := by decide
  have h7 : nist7Table.getD (Int.toNat 11) 0 = -3 := by decide
  have h10 : nist10Table.getD (Int.toNat 11) 0 = -22 := by decide
  unfold tableEntry
  rw [h4, h7, h10]
  norm_num

/-- Inside the range in which `temp / 5 - 1` fits `int8_t` the three NIST functions clamp:
below 5 degrees they return the first table entry, from 60 degrees on the last one. -/
theorem nistOffset_clamped_in_range (temp : ℚ) :
    (-640 < temp → temp < 5 →
      getNIST4TempOffset temp = 0 ∧ getNIST7TempOffset temp = 9 / 100 ∧
      getNIST10TempOffset temp = 25 / 100) ∧
    (60 ≤ temp → temp < 645 →
      getNIST4TempOffset temp = 9 / 100 ∧ getNIST7TempOffset temp = -3 / 100 ∧
      getNIST10TempOffset temp = -22 / 100) := by
  constructor
  · intro hlo hhi
    unfold getNIST4TempOffset getNIST7TempOffset getNIST10TempOffset
    rw [nistIndex_below temp hlo hhi]
    exact tableEntry_first
  · intro hlo hhi
    unfold getNIST4TempOffset getNIST7TempOffset getNIST10TempOffset
    rw [nistIndex_above temp hlo hhi]
    exact tableEntry_last


/-- While the sum of the samples fits 16 bits, `readRaw` returns the floor of their
average. -/
theorem readRaw_average (env : Env) (p : PhProbe) (samples : Nat) (w : World)
    (hs : samples ≠ 0) (hsum : sampleSum env p.probePin w.reads samples < 65536) :
    readRaw env p samples w
      = some (sampleSum env p.probePin w.reads samples / samples, afterRead p samples w) := by
  rw [readRaw_eq env p samples w hs, rawAt_eq, Nat.mod_eq_of_lt hsum]

theorem iterate_afterCycle_reads (env : Env) (p : PhProbe) (samples : Nat) :
    ∀ (n : Nat) (w : World),
      ((afterCycle env p samples)^[n] w).reads = w.reads + n * samples := by
  intro n
  induction n with
  | zero => intro w; simp
  | succ n ih =>
    intro w
    rw [Function.iterate_succ_apply, ih, afterCycle_reads]
    ring

theorem iterate_afterCycle_clockReads (env : Env) (p : PhProbe) (samples : Nat) :
    ∀ (n : Nat) (w : World),
      ((afterCycle env p samples)^[n] w).clockReads = w.clockReads + n := by
  intro n
  induction n with
  | zero => intro w; simp
  | succ n ih =>
    intro w
    rw [Function.iterate_succ_apply, ih, afterCycle_clockReads]
    ring

/-- Settling: if the next `n + 1` readings all equal `lastValue`, the first `n` checks of
the clock are before the deadline and the check after reading `n + 1` is not, then the loop
returns `lastValue` after exactly `n + 1` iterations. -/
theorem readStableValueLoop_settle (env : Env) (p : PhProbe) (samples : Nat) (hs : samples ≠ 0)
    (lastValue endTime : Nat) (lastDirection : Int) :
    ∀ (n : Nat) (w : World) (fuel : Nat), n < fuel →
      (∀ j, j ≤ n → rawAt env p samples (w.reads + j * samples) = lastValue) →
      (∀ j, j < n → env.clock (w.clockReads + j) % 2 ^ 32 < endTime) →
      endTime ≤ env.clock (w.clockReads + n) % 2 ^ 32 →
      readStableValueLoop env p samples fuel endTime lastDirection lastValue w
        = some (lastValue, (afterCycle env p samples)^[n + 1] w) := by
  intro n
  induction n with
  | zero =>
    intro w fuel hf hv _ hdone
    obtain ⟨f, rfl⟩ : ∃ f, fuel = f + 1 := ⟨fuel - 1, by omega⟩
    have hv0 : rawAt env p samples w.reads = lastValue := by
      have := hv 0 (le_refl _)
      simpa using this
    rw [readStableValueLoop_same env p samples f endTime lastDirection lastValue w hs hv0]
    have hc : cycleTime env p samples w ≥ endTime := by
      rw [cycleTime_eq]
      simpa using hdone
    rw [if_pos hc]
    rfl
  | succ n ih =>
    intro w fuel hf hv hwait hdone
    obtain ⟨f, rfl⟩ : ∃ f, fuel = f + 1 := ⟨fuel - 1, by omega⟩
    have hv0 : rawAt env p samples w.reads = lastValue := by
      have := hv 0 (Nat.zero_le _)
      simpa using this
    rw [readStableValueLoop_same env p samples f endTime lastDirection lastValue w hs hv0]
    have hc : ¬ cycleTime env p samples w ≥ endTime := by
      rw [cycleTime_eq]
      have := hwait 0 (Nat.succ_pos _)
      simp only [Nat.add_zero] at this
      omega
    rw [if_neg hc]
    rw [ih (afterCycle env p samples w) f (by omega)]
    · rw [Function.iterate_succ_apply (afterCycle env p samples) (n + 1) w]
    · intro j hj
      have := hv (j + 1) (by omega)
      rw [afterCycle_reads]
      rw [← this]
      congr 1
      ring
    · intro j hj
      have := hwait (j + 1) (by omega)
      rw [afterCycle_clockReads]
      rw [show w.clockReads + 1 + j = w.clockReads + (j + 1) by ring]
      exact this
    · rw [afterCycle_clockReads]
      rw [show w.clockReads + 1 + n = w.clockReads + (n + 1) by ring]
      exact hdone


/-- Without wrap-around the deadline is the time of the change plus the stabilisation
delay in milliseconds. -/
theorem deadline_eq_of_no_wrap (env : Env) (p : PhProbe) (t : Nat)
    (hint : p.stabilizeDelaySecs * 1000 < env.intModulus)
    (hlong : t + p.stabilizeDelaySecs * 1000 < 2 ^ 32) :
    (t + stabilizeDelayMs env p) % 2 ^ 32 = t + p.stabilizeDelaySecs * 1000 := by
  unfold stabilizeDelayMs
  rw [Nat.mod_eq_of_lt hint, Nat.mod_eq_of_lt hlong]

/-- Constant source, value 0: the placeholder 0 counts as the previous value, so the
deadline set on entry stays and the loop returns 0 at the first check at or after it. -/
theorem readStableValue_const_zero (env : Env) (p : PhProbe) (samples : Nat) (w : World)
    (n fuel : Nat) (hs : samples ≠ 0) (hfuel : n < fuel)
    (hconst : ∀ j, j ≤ n → rawAt env p samples (w.reads + j * samples) = 0)
    (hwait : ∀ j, j < n → env.clock (w.clockReads + 1 + j) % 2 ^ 32
      < (env.clock w.clockReads % 2 ^ 32 + stabilizeDelayMs env p) % 2 ^ 32)
    (hdone : (env.clock w.clockReads % 2 ^ 32 + stabilizeDelayMs env p) % 2 ^ 32
      ≤ env.clock (w.clockReads + 1 + n) % 2 ^ 32) :
    readStableValue env fuel p samples w
      = some (0, (afterCycle env p samples)^[n + 1] (millis env w).2) := by
  unfold readStableValue
  exact readStableValueLoop_settle env p samples hs 0 _ 0 n (millis env w).2 fuel hfuel
    hconst hwait hdone

/-- Constant source, value `v ≠ 0`: the first reading is a change from the placeholder 0
and sets the deadline; the loop returns `v` at the first later check at or after that
deadline. -/
theorem readStableValue_const_nonzero (env : Env) (p : PhProbe) (samples : Nat) (w : World)
    (v n fuel : Nat) (hs : samples ≠ 0) (hv : v ≠ 0) (hfuel : n + 1 < fuel)
    (hconst : ∀ j, j ≤ n + 1 → rawAt env p samples (w.reads + j * samples) = v)
    (hwait : ∀ j, j < n → env.clock (w.clockReads + 2 + j) % 2 ^ 32
      < (env.clock (w.clockReads + 1) % 2 ^ 32 + stabilizeDelayMs env p) % 2 ^ 32)
    (hdone : (env.clock (w.clockReads + 1) % 2 ^ 32 + stabilizeDelayMs env p) % 2 ^ 32
      ≤ env.clock (w.clockReads + 2 + n) % 2 ^ 32) :
    readStableValue env fuel p samples w
      = some (v, (afterCycle env p samples)^[n + 2] (millis env w).2) := by
  obtain ⟨f, rfl⟩ : ∃ f, fuel = f + 1 := ⟨fuel - 1, by omega⟩
  have h0 : rawAt env p samples (millis env w).2.reads = v := by
    have := hconst 0 (Nat.zero_le _)
    simpa using this
  unfold readStableValue
  rw [readStableValueLoop_change env p samples f _ 0 0 _ hs (by rw [h0]; exact hv) (by simp)]
  simp only [ne_eq, not_true_eq_false, if_false]
  rw [h0]
  rw [readStableValueLoop_settle env p samples hs v _ 0 n
    (afterCycle env p samples (millis env w).2) f (by omega)]
  · rw [Function.iterate_succ_apply (afterCycle env p samples) (n + 1) (millis env w).2]
  · intro j hj
    have := hconst (j + 1) (by omega)
    rw [afterCycle_reads, ← this]
    congr 1
    show w.reads + samples + j * samples = w.reads + (j + 1) * samples
    ring
  · intro j hj
    exact hwait j hj
  · exact hdone


/-- On `5 ≤ temp < 65` the `int8_t` conversion of `temp / 5 - 1` is `⌊temp / 5⌋ - 1`
(truncation and floor agree on non-negative values) and no clamping takes place. -/
theorem nistIndex_bucket (temp : ℚ) (hlo : 5 ≤ temp) (hhi : temp < 65) :
    toInt8 (temp / 5 - 1) = ⌊temp / 5⌋ - 1 ∧ nistIndex temp = ⌊temp / 5⌋ - 1 ∧
    0 ≤ ⌊temp / 5⌋ - 1 ∧ ⌊temp / 5⌋ - 1 ≤ 11 := by
  have hx0 : (0 : ℚ) ≤ temp / 5 - 1 := by linarith
  have hx1 : temp / 5 - 1 < 128 := by linarith
  have hfl : ⌊temp / 5 - 1⌋ = ⌊temp / 5⌋ - 1 := Int.floor_sub_one _
  have h1 : (1 : ℤ) ≤ ⌊temp / 5⌋ := Int.le_floor.mpr (by push_cast; linarith)
  have h2 : ⌊temp / 5⌋ < 13 := Int.floor_lt.mpr (by push_cast; linarith)
  have hconv : toInt8 (temp / 5 - 1) = ⌊temp / 5⌋ - 1 := by
    rw [toInt8_of_nonneg _ hx0 hx1, hfl]
  refine ⟨hconv, ?_, by omega, by omega⟩
  rw [nistIndex_eq, hconv]
  split
  · omega
  · split <;> omega


/-- The configuration fields are never written by `calibrateWith`. -/
theorem calibrateWith_config (p : PhProbe) (r : Nat) (pH temperature : ℚ) :
    (calibrateWith p r pH temperature).2.numSamples = p.numSamples ∧
    (calibrateWith p r pH temperature).2.numCalibrationSamples = p.numCalibrationSamples ∧
    (calibrateWith p r pH temperature).2.sampleInterval = p.sampleInterval ∧
    (calibrateWith p r pH temperature).2.stabilizeDelaySecs = p.stabilizeDelaySecs ∧
    (calibrateWith p r pH temperature).2.probePin = p.probePin := by
  by_cases h0 : r = 0
  · subst h0
    rw [calibrateWith_zero]
    exact ⟨rfl, rfl, rfl, rfl, rfl⟩
  by_cases hp : p.lastCalReading = 0
  · rw [calibrateWith_first p r pH temperature h0 hp]
    exact ⟨rfl, rfl, rfl, rfl, rfl⟩
  by_cases hn : |(r : ℤ) - (p.lastCalReading : ℤ)| < 50
  · rw [calibrateWith_near p r pH temperature h0 hp hn]
    exact ⟨rfl, rfl, rfl, rfl, rfl⟩
  · rw [calibrateWith_far p r pH temperature h0 hp (not_lt.mp hn)]
    exact ⟨rfl, rfl, rfl, rfl, rfl⟩

/-- The adjusted standard written out for the three nominal values. -/
theorem standardValue_cases (temperature : ℚ) :
    standardValue 10 temperature = 10 + getNIST10TempOffset temperature ∧
    standardValue 4 temperature = 4 + getNIST4TempOffset temperature ∧
    standardValue 7 temperature = 7 + getNIST7TempOffset temperature := by
  unfold standardValue
  exact ⟨by simp, by simp, by simp⟩

/-- The nominal standard is one of 10, 4, 7. -/
theorem nominalStandard_mem (g : ℚ) :
    nominalStandard g = 10 ∨ nominalStandard g = 4 ∨ nominalStandard g = 7 := by
  unfold nominalStandard
  split
  · exact Or.inl rfl
  · split
    · exact Or.inr (Or.inl rfl)
    · exact Or.inr (Or.inr rfl)


/-- The state after `calibrateWith` samples like the state before. -/
theorem calibrateWith_sameConfig (p : PhProbe) (r : Nat) (pH temperature : ℚ) :
    SameConfig p (calibrateWith p r pH temperature).2 := by
  obtain ⟨_, _, h3, h4, h5⟩ := calibrateWith_config p r pH temperature
  exact ⟨h5, h3, h4⟩

/-- A reading taken in state `p` is the reading `calibrateProbe` takes in any state `q`
with the same sampling configuration. -/
theorem calibrateProbe_eq_of_sameConfig (env : Env) (fuel : Nat) (p q : PhProbe) (pH : ℚ)
    (stabilize : Bool) (temperature : ℚ) (w w1 : World) (r : Nat)
    (hcfg : SameConfig p q) (hn : q.numCalibrationSamples = p.numCalibrationSamples)
    (hread : takeReading env fuel p stabilize p.numCalibrationSamples w = some (r, w1)) :
    calibrateProbe env fuel q pH stabilize temperature w
      = some ((calibrateWith q r pH temperature).1, (calibrateWith q r pH temperature).2, w1) := by
  apply calibrateProbe_eq
  rw [hn, takeReading_congr env fuel p q hcfg]
  exact hread

/-- A call made while a point is pending returns 0 or 2, never 1, and leaves no point
pending. -/
theorem calibrateWith_pending (p : PhProbe) (r : Nat) (pH temperature : ℚ)
    (hp : p.lastCalReading ≠ 0) :
    ((calibrateWith p r pH temperature).1 = 0 ∨ (calibrateWith p r pH temperature).1 = 2) ∧
    (calibrateWith p r pH temperature).2.lastCalReading = 0 := by
  by_cases h0 : r = 0
  · subst h0
    rw [calibrateWith_zero]
    exact ⟨Or.inr rfl, rfl⟩
  by_cases hn : |(r : ℤ) - (p.lastCalReading : ℤ)| < 50
  · rw [calibrateWith_near p r pH temperature h0 hp hn]
    exact ⟨Or.inr rfl, rfl⟩
  · rw [calibrateWith_far p r pH temperature h0 hp (not_lt.mp hn)]
    exact ⟨Or.inl rfl, rfl⟩


/-- The quick reading of `autoCalibrateProbe`: with `numSamples` forced to 1 and
`stabilize = false`, `readPh` reads one ADC sample and applies the pH formula to it. -/
theorem readPh_single (env : Env) (fuel : Nat) (p : PhProbe) (temperature : ℚ) (w : World) :
    readPh env fuel { p with numSamples := 1 } false temperature w
      = some (initialGuessPh env p temperature w, afterRead p 1 w) := by
  have hread : takeReading env fuel { p with numSamples := 1 } false 1 w
      = some (env.adc p.probePin w.reads % 65536, afterRead p 1 w) := by
    unfold takeReading
    simp only [Bool.false_eq_true, if_false]
    rw [readRaw_eq env _ 1 w (by norm_num), rawAt_one]
    rfl
  exact readPh_eq env fuel { p with numSamples := 1 } false temperature w _ _ hread

/-- One single-sample `readRaw` advances the world by one ADC read and nothing else. -/
theorem afterRead_one (p : PhProbe) (w : World) :
    afterRead p 1 w = { w with reads := w.reads + 1 } := by
  unfold afterRead
  simp


/-- Range of the table entries (in hundredths) over the indices `0 .. 11`. -/
theorem table_bounds (idx : ℤ) (h0 : 0 ≤ idx) (h11 : idx ≤ 11) :
    (0 ≤ nist4Table.getD idx.toNat 0 ∧ nist4Table.getD idx.toNat 0 ≤ 9) ∧
    (-4 ≤ nist7Table.getD idx.toNat 0 ∧ nist7Table.getD idx.toNat 0 ≤ 9) ∧
    (-22 ≤ nist10Table.getD idx.toNat 0 ∧ nist10Table.getD idx.toNat 0 ≤ 25) := by
  interval_cases idx <;> decide

/-- Range of the three NIST offsets, for every temperature. -/
theorem nistOffset_bounds (temp : ℚ) :
    (0 ≤ getNIST4TempOffset temp ∧ getNIST4TempOffset temp ≤ 9 / 100) ∧
    (-4 / 100 ≤ getNIST7TempOffset temp ∧ getNIST7TempOffset temp ≤ 9 / 100) ∧
    (-22 / 100 ≤ getNIST10TempOffset temp ∧ getNIST10TempOffset temp ≤ 25 / 100) := by
  obtain ⟨h0, h11⟩ := nistIndex_range temp
  obtain ⟨⟨a1, a2⟩, ⟨b1, b2⟩, ⟨c1, c2⟩⟩ := table_bounds (nistIndex temp) h0 h11
  have a1' : (0 : ℚ) ≤ ((nist4Table.getD (nistIndex temp).toNat 0 : ℤ) : ℚ) := by
    exact_mod_cast a1
  have a2' : ((nist4Table.getD (nistIndex temp).toNat 0 : ℤ) : ℚ) ≤ 9 := by exact_mod_cast a2
  have b1' : (-4 : ℚ) ≤ ((nist7Table.getD (nistIndex temp).toNat 0 : ℤ) : ℚ) := by
    exact_mod_cast b1
  have b2' : ((nist7Table.getD (nistIndex temp).toNat 0 : ℤ) : ℚ) ≤ 9 := by exact_mod_cast b2
  have c1' : (-22 : ℚ) ≤ ((nist10Table.getD (nistIndex temp).toNat 0 : ℤ) : ℚ) := by
    exact_mod_cast c1
  have c2' : ((nist10Table.getD (nistIndex temp).toNat 0 : ℤ) : ℚ) ≤ 25 := by
    exact_mod_cast c2
  unfold getNIST4TempOffset getNIST7TempOffset getNIST10TempOffset tableEntry
  refine ⟨⟨?_, ?_⟩, ⟨?_, ?_⟩, ⟨?_, ?_⟩⟩ <;> linarith


/-- The averaged reading depends on the probe state through the pin only. -/
theorem rawAt_congr (env : Env) (p q : PhProbe) (h : q.probePin = p.probePin)
    (samples k : Nat) : rawAt env q samples k = rawAt env p samples k := by
  rw [rawAt_eq, rawAt_eq, h]


/-- A sum of `n` samples that are all at most `hi` is at most `n * hi`. -/
theorem sampleSum_le (env : Env) (pin k n hi : Nat)
    (h : ∀ j, j < n → env.adc pin (k + j) ≤ hi) : sampleSum env pin k n ≤ n * hi := by
  unfold sampleSum
  have := Finset.sum_le_card_nsmul (Finset.range n) (fun j => env.adc pin (k + j)) hi
    (fun j hj => h j (Finset.mem_range.mp hj))
  simpa using this

/-- A sum of `n` samples that are all at least `lo` is at least `n * lo`. -/
theorem sampleSum_ge (env : Env) (pin k n lo : Nat)
    (h : ∀ j, j < n → lo ≤ env.adc pin (k + j)) : n * lo ≤ sampleSum env pin k n := by
  unfold sampleSum
  have := Finset.card_nsmul_le_sum (Finset.range n) (fun j => env.adc pin (k + j)) lo
    (fun j hj => h j (Finset.mem_range.mp hj))
  simpa using this

/-- The sum of `n` samples of the constant source `v`. -/
theorem sampleSum_constEnv (v tick pin k n : Nat) :
    sampleSum (constEnv v tick) pin k n = n * v := by
  unfold sampleSum constEnv
  simp

/-- The accumulator of `readRaw` after `m` iterations is the sum of the first `m` samples
whenever that sum fits 16 bits. -/
theorem readRawLoop_total (env : Env) (p : PhProbe) (samples m : Nat) (w : World)
    (h : sampleSum env p.probePin w.reads m < 65536) :
    (readRawLoop env p samples m 0 0 w).1 = sampleSum env p.probePin w.reads m := by
  rw [readRawLoop_fst env p samples m 0 0 w (by norm_num)]
  simp [Nat.mod_eq_of_lt h]

/-- From 65 samples on, full-scale samples make the accumulator wrap: the result of
`readRaw` is below the true average 1023. -/
theorem rawAt_full_scale_wraps (p : PhProbe) (M k : Nat) (hM : 65 ≤ M) :
    65536 ≤ sampleSum (constEnv 1023 1) p.probePin k M ∧
    sampleSum (constEnv 1023 1) p.probePin k M / M = 1023 ∧
    rawAt (constEnv 1023 1) p M k ≤ 1008 := by
  have hpos : 0 < M := by omega
  rw [rawAt_eq, sampleSum_constEnv]
  refine ⟨?_, ?_, ?_⟩
  · nlinarith
  · exact Nat.mul_div_cancel_left 1023 hpos
  · have h1 : M * 1023 % 65536 ≤ 65535 := by
      have := Nat.mod_lt (M * 1023) (show 0 < 65536 by norm_num)
      omega
    calc M * 1023 % 65536 / M ≤ 65535 / M := Nat.div_le_div_right h1
      _ ≤ 65535 / 65 := Nat.div_le_div_left hM (by norm_num)
      _ = 1008 := by norm_num


theorem iterate_afterCycle_delays (env : Env) (p : PhProbe) (samples : Nat) :
    ∀ (n : Nat) (w : World),
      ((afterCycle env p samples)^[n] w).delays
        = w.delays ++ List.replicate (n * (samples - 1)) p.sampleInterval := by
  intro n
  induction n with
  | zero => intro w; simp
  | succ n ih =>
    intro w
    rw [Function.iterate_succ_apply, ih, afterCycle_delays, List.append_assoc,
      ← List.replicate_add]
    congr 2
    ring

/-- Forced accept: with a nonzero first reading `a`, a second reading `b ≠ a` and a third
reading `c` on the other side of `b` (`a < b > c` or `a > b < c`), `readStableValue`
calls `delay(stabilizeDelaySecs * 1000)` once after the third reading and returns the
fourth reading, for every clock. -/
theorem readStableValue_forced_accept (env : Env) (p : PhProbe) (samples fuel : Nat)
    (w : World) (hs : samples ≠ 0) (hfuel : 3 ≤ fuel)
    (ha : 0 < rawAt env p samples w.reads)
    (hrev : (rawAt env p samples w.reads < rawAt env p samples (w.reads + samples) ∧
        rawAt env p samples (w.reads + 2 * samples)
          < rawAt env p samples (w.reads + samples)) ∨
      (rawAt env p samples (w.reads + samples) < rawAt env p samples w.reads ∧
        rawAt env p samples (w.reads + samples)
          < rawAt env p samples (w.reads + 2 * samples))) :
    readStableValue env fuel p samples w
      = some (rawAt env p samples (w.reads + 3 * samples),
          { reads := w.reads + 4 * samples,
            clockReads := w.clockReads + 4,
            delays := w.delays ++ List.replicate (samples - 1) p.sampleInterval
              ++ List.replicate (samples - 1) p.sampleInterval
              ++ List.replicate (samples - 1) p.sampleInterval
              ++ [stabilizeDelayMs env p]
              ++ List.replicate (samples - 1) p.sampleInterval }) := by
  obtain ⟨k, rfl⟩ : ∃ k, fuel = k + 3 := ⟨fuel - 3, by omega⟩
  have e2 : (afterCycle env p samples (afterCycle env p samples (millis env w).2)).reads
      = w.reads + 2 * samples := by
    simp only [afterCycle_reads, millis]
    omega
  have e3 : (afterCycle env p samples (afterCycle env p samples (millis env w).2)).reads
      + samples = w.reads + 3 * samples := by
    rw [e2]
    omega
  have h1 : rawAt env p samples (millis env w).2.reads ≠ 0 := Nat.pos_iff_ne_zero.mp ha
  have hrev2 : (rawAt env p samples (millis env w).2.reads
        < rawAt env p samples (afterCycle env p samples (millis env w).2).reads ∧
      rawAt env p samples
          (afterCycle env p samples (afterCycle env p samples (millis env w).2)).reads
        < rawAt env p samples (afterCycle env p samples (millis env w).2).reads) ∨
      (rawAt env p samples (afterCycle env p samples (millis env w).2).reads
        < rawAt env p samples (millis env w).2.reads ∧
      rawAt env p samples (afterCycle env p samples (millis env w).2).reads
        < rawAt env p samples
          (afterCycle env p samples (afterCycle env p samples (millis env w).2)).reads) := by
    rw [e2]
    exact hrev
  have hab : rawAt env p samples (afterCycle env p samples (millis env w).2).reads
      ≠ rawAt env p samples (millis env w).2.reads := by
    rcases hrev2 with h | h <;> omega
  have hbc : rawAt env p samples
      (afterCycle env p samples (afterCycle env p samples (millis env w).2)).reads
      ≠ rawAt env p samples (afterCycle env p samples (millis env w).2).reads := by
    rcases hrev2 with h | h <;> omega
  have hopp : directionOf
      (rawAt env p samples (afterCycle env p samples (millis env w).2).reads)
      (rawAt env p samples (millis env w).2.reads) ≠ 0 ∧
      directionOf
        (rawAt env p samples
          (afterCycle env p samples (afterCycle env p samples (millis env w).2)).reads)
        (rawAt env p samples (afterCycle env p samples (millis env w).2).reads)
      ≠ directionOf
        (rawAt env p samples (afterCycle env p samples (millis env w).2).reads)
        (rawAt env p samples (millis env w).2.reads) := by
    unfold directionOf
    rcases hrev2 with ⟨h1, h2⟩ | ⟨h1, h2⟩
    · rw [if_pos h1, if_neg (Nat.lt_asymm h2)]
      exact ⟨by norm_num, by norm_num⟩
    · rw [if_neg (Nat.lt_asymm h1), if_pos h2]
      exact ⟨by norm_num, by norm_num⟩
  unfold readStableValue
  rw [readStableValueLoop_change env p samples (k + 2) _ 0 0 _ hs h1 (by simp)]
  simp only [ne_eq, not_true_eq_false, if_false]
  rw [readStableValueLoop_change env p samples (k + 1) _ 0 _ _ hs hab (by simp)]
  rw [if_pos h1]
  rw [readStableValueLoop_reversal env p samples k _ _ _ _ hs hbc hopp]
  rw [e3]
  simp only [afterCycle, afterRead, delay, millis, Option.some.injEq, Prod.mk.injEq,
    World.mk.injEq, true_and]
  refine ⟨by omega, by simp⟩

/-- Settling after one change: with a nonzero first reading `a`, a second reading `b ≠ a`
and `b` repeated, `readStableValue` returns `b` at the first check of the clock at or
after the deadline set when `b` was first seen; the returned world is reached by plain
loop iterations only (no forced-accept sleep and no extra reading). -/
theorem readStableValue_settles_after_change (env : Env) (p : PhProbe) (samples : Nat)
    (w : World) (b n fuel : Nat) (hs : samples ≠ 0) (hfuel : n + 2 < fuel)
    (ha : 0 < rawAt env p samples w.reads) (hab : b ≠ rawAt env p samples w.reads)
    (hconst : ∀ j, j ≤ n + 1 → rawAt env p samples (w.reads + (j + 1) * samples) = b)
    (hwait : ∀ j, j < n → env.clock (w.clockReads + 3 + j) % 2 ^ 32
      < (env.clock (w.clockReads + 2) % 2 ^ 32 + stabilizeDelayMs env p) % 2 ^ 32)
    (hdone : (env.clock (w.clockReads + 2) % 2 ^ 32 + stabilizeDelayMs env p) % 2 ^ 32
      ≤ env.clock (w.clockReads + 3 + n) % 2 ^ 32) :
    readStableValue env fuel p samples w
      = some (b, (afterCycle env p samples)^[n + 3] (millis env w).2) ∧
    ((afterCycle env p samples)^[n + 3] (millis env w).2).reads
      = w.reads + (n + 3) * samples ∧
    ((afterCycle env p samples)^[n + 3] (millis env w).2).delays
      = w.delays ++ List.replicate ((n + 3) * (samples - 1)) p.sampleInterval := by
  refine ⟨?_, iterate_afterCycle_reads env p samples (n + 3) _,
    iterate_afterCycle_delays env p samples (n + 3) _⟩
  obtain ⟨f, rfl⟩ : ∃ f, fuel = f + 2 := ⟨fuel - 2, by omega⟩
  have h1 : rawAt env p samples (millis env w).2.reads ≠ 0 := Nat.pos_iff_ne_zero.mp ha
  have hb : rawAt env p samples (afterCycle env p samples (millis env w).2).reads = b := by
    have := hconst 0 (Nat.zero_le _)
    rw [afterCycle_reads]
    simpa using this
  have hne : rawAt env p samples (afterCycle env p samples (millis env w).2).reads
      ≠ rawAt env p samples (millis env w).2.reads := by
    rw [hb]
    exact hab
  unfold readStableValue
  rw [readStableValueLoop_change env p samples (f + 1) _ 0 0 _ hs h1 (by simp)]
  simp only [ne_eq, not_true_eq_false, if_false]
  rw [readStableValueLoop_change env p samples f _ 0 _ _ hs hne (by simp)]
  rw [hb]
  rw [readStableValueLoop_settle env p samples hs b _ _ n
    (afterCycle env p samples (afterCycle env p samples (millis env w).2)) f (by omega)]
  · rw [Function.iterate_succ_apply (afterCycle env p samples) (n + 2) (millis env w).2,
      Function.iterate_succ_apply (afterCycle env p samples) (n + 1)
        (afterCycle env p samples (millis env w).2)]
  · intro j hj
    have := hconst (j + 1) (by omega)
    rw [← this]
    congr 1
    simp only [afterCycle_reads, millis]
    ring
  · intro j hj
    exact hwait j hj
  · exact hdone

end PhProbe

/-! ## Binary32 arithmetic of `readPh` -/

namespace PhProbe

/-- The literals of `readPh` and `autoCalibrateProbe` as binary32 values: `273.15f` is
`8950579 / 32768 = 273.149993896484375`, and `8.5f`, `5.5f` are exact. -/
theorem float_literals :
    FloatValue.ofRat (27315 / 100) = FloatValue.num false (8950579 / 32768) ∧
    FloatValue.ofRat (85 / 10) = FloatValue.num false (17 / 2) ∧
    FloatValue.ofRat (55 / 10) = FloatValue.num false (11 / 2) := by decide!

/-- The value behind a sign and the magnitude of a rational is that rational. -/
theorem float_signed_abs (q : ℚ) : FloatValue.signed (decide (q < 0)) |q| = q := by
  unfold FloatValue.signed
  by_cases h : q < 0
  · simp [h, abs_of_neg h]
  · simp [h, abs_of_nonneg (not_lt.mp h)]

/-- On a finite guess the `float` classification is the classification of its value. -/
theorem nominalStandardFloat_num (s : Bool) (m : ℚ) :
    nominalStandardFloat (FloatValue.num s m) = nominalStandard (FloatValue.signed s m) := by
  unfold nominalStandardFloat nominalStandard
  rw [float_literals.2.1, float_literals.2.2]
  simp only [FloatValue.ge, FloatValue.le, decide_eq_true_eq, ge_iff_le]
  have e1 : FloatValue.signed false (17 / 2) = 85 / 10 := by
    simp only [FloatValue.signed]
    norm_num
  have e2 : FloatValue.signed false (11 / 2) = 55 / 10 := by
    simp only [FloatValue.signed]
    norm_num
  rw [e1, e2]

/-- On the special values: `+∞` is classified as 10, `-∞` as 4, and `nan`, for which both
comparisons are false, as 7. -/
theorem nominalStandardFloat_special :
    nominalStandardFloat (FloatValue.inf false) = 10 ∧
    nominalStandardFloat (FloatValue.inf true) = 4 ∧
    nominalStandardFloat FloatValue.nan = 7 := by decide!

/-- The `float` classification yields 10, 4 or 7. -/
theorem nominalStandardFloat_mem (g : FloatValue) :
    nominalStandardFloat g = 10 ∨ nominalStandardFloat g = 4 ∨ nominalStandardFloat g = 7 := by
  unfold nominalStandardFloat
  split
  · exact Or.inl rfl
  · split
    · exact Or.inr (Or.inl rfl)
    · exact Or.inr (Or.inr rfl)

/-- The method `autoCalibrateProbe` with the arithmetic `ph` is one single-sample
`readRaw`, the classification of the guess, and `calibrateProbe` on the unchanged probe
state with the adjusted standard. -/
theorem autoCalibrateProbeVia_eq (ph : CalibrationValues → Nat → ℚ → FloatValue) (env : Env)
    (fuel : Nat) (p : PhProbe) (stabilize : Bool) (temperature : ℚ) (w : World) :
    autoCalibrateProbeVia ph env fuel p stabilize temperature w =
      match calibrateProbe env fuel p
          (standardValue (nominalStandardFloat (initialGuessVia ph env p temperature w))
            temperature)
          stabilize temperature (afterRead p 1 w) with
      | none => none
      | some (res, p3, w2) =>
        if res = 2 then some (0, p3, w2)
        else some (nominalStandardFloat (initialGuessVia ph env p temperature w), p3, w2) := by
  have hread : takeReading env fuel { p with numSamples := 1 } false 1 w
      = some (env.adc p.probePin w.reads % 65536, afterRead p 1 w) := by
    unfold takeReading
    simp only [Bool.false_eq_true, if_false]
    rw [readRaw_eq env _ 1 w (by norm_num), rawAt_one]
    rfl
  unfold autoCalibrateProbeVia readPhVia
  simp only [hread]
  rfl

/-- The exact embedding `autoCalibrateProbe` is `autoCalibrateProbeVia` for the arithmetic
that does not round. -/
theorem autoCalibrateProbe_eq_via (env : Env) (fuel : Nat) (p : PhProbe) (stabilize : Bool)
    (temperature : ℚ) (w : World) :
    autoCalibrateProbe env fuel p stabilize temperature w
      = autoCalibrateProbeVia (fun cv r T => FloatValue.ofExact (phOfReading cv r T))
          env fuel p stabilize temperature w := by
  have hn : nominalStandardFloat (initialGuessVia
      (fun cv r T => FloatValue.ofExact (phOfReading cv r T)) env p temperature w)
      = nominalStandard (initialGuessPh env p temperature w) := by
    unfold initialGuessVia FloatValue.ofExact
    rw [nominalStandardFloat_num, float_signed_abs]
    rfl
  rw [autoCalibrateProbe_eq, autoCalibrateProbeVia_eq, hn]

end PhProbe

/-! ## Claims -/

namespace PhProbe

/-- C1: the status returned by `calibrateProbe` is determined by the averaged reading `r`
it takes and the pending reading `lastCalReading` alone (it is the same for any other pH,
temperature and probe state with the same pending reading): it is 2 exactly when `r = 0`,
or a point is pending and `|r - lastCalReading| < 50`; it is 1 exactly when `r ≠ 0` and no
point is pending; it is 0 exactly when `r ≠ 0`, a point is pending and
`|r - lastCalReading| ≥ 50`. -/
theorem calibrateProbe_status (env : Env) (fuel : Nat) (p : PhProbe) (pH : ℚ)
    (stabilize : Bool) (temperature : ℚ) (w w1 : World) (r : Nat)
    (hread : takeReading env fuel p stabilize p.numCalibrationSamples w = some (r, w1)) :
    ∃ (st : Nat) (p1 : PhProbe),
      calibrateProbe env fuel p pH stabilize temperature w = some (st, p1, w1) ∧
      (st = 2 ↔ r = 0 ∨ (p.lastCalReading ≠ 0 ∧ |(r : ℤ) - (p.lastCalReading : ℤ)| < 50)) ∧
      (st = 1 ↔ r ≠ 0 ∧ p.lastCalReading = 0) ∧
      (st = 0 ↔ r ≠ 0 ∧ p.lastCalReading ≠ 0 ∧ 50 ≤ |(r : ℤ) - (p.lastCalReading : ℤ)|) ∧
      (∀ (q : PhProbe) (pH2 temperature2 : ℚ), q.lastCalReading = p.lastCalReading →
        (calibrateWith q r pH2 temperature2).1 = st) := by
  refine ⟨(calibrateWith p r pH temperature).1, (calibrateWith p r pH temperature).2, ?_, ?_⟩
  · simp [calibrateProbe, hread]
  · rw [calibrateWith_status]
    by_cases h0 : r = 0
    · refine ⟨?_, ?_, ?_, ?_⟩
      · simp [h0]
      · simp [h0]
      · simp [h0]
      · intro q pH2 temperature2 _
        rw [calibrateWith_status]
        simp [h0]
    by_cases h1 : p.lastCalReading = 0
    · refine ⟨?_, ?_, ?_, ?_⟩
      · simp [h0, h1]
      · simp [h0, h1]
      · simp [h0, h1]
      · intro q pH2 temperature2 hq
        rw [calibrateWith_status, hq]
    by_cases h2 : |(r : ℤ) - (p.lastCalReading : ℤ)| < 50
    · refine ⟨?_, ?_, ?_, ?_⟩
      · simp [h0, h1, h2]
      · simp [h0, h1, h2]
      · simp [h0, h1, h2]
      · intro q pH2 temperature2 hq
        rw [calibrateWith_status, hq]
    · refine ⟨?_, ?_, ?_, ?_⟩
      · simp [h0, h1, h2]
      · simp [h0, h1, h2]
      · simp only [h0, h1, h2, if_false, not_false_eq_true, true_and, ne_eq, true_iff]
        exact not_lt.mp h2
      · intro q pH2 temperature2 hq
        rw [calibrateWith_status, hq]

/-- Witness for C1: a pending reading of 100 and ten samples of 150 (a difference of
exactly 50 counts) on the default probe. -/
theorem calibrateProbe_status_witness :
    ∃ (st : Nat) (p1 : PhProbe),
      calibrateProbe (constEnv 150 1) 0 { lastCalReading := 100 } 4 false 25 {}
        = some (st, p1, afterRead {} 10 {}) ∧
      (st = 2 ↔ 150 = 0 ∨ ((100 : Nat) ≠ 0 ∧ |((150 : Nat) : ℤ) - ((100 : Nat) : ℤ)| < 50)) ∧
      (st = 1 ↔ 150 ≠ 0 ∧ (100 : Nat) = 0) ∧
      (st = 0 ↔ 150 ≠ 0 ∧ (100 : Nat) ≠ 0 ∧ 50 ≤ |((150 : Nat) : ℤ) - ((100 : Nat) : ℤ)|) ∧
      (∀ (q : PhProbe) (pH2 temperature2 : ℚ), q.lastCalReading = 100 →
        (calibrateWith q 150 pH2 temperature2).1 = st) :=
  calibrateProbe_status (constEnv 150 1) 0 { lastCalReading := 100 } 4 false 25 {}
    (afterRead {} 10 {}) 150 (by decide)


/-- C2: two-point calibration inverts the `readPh` formula in exact arithmetic. For a
nonzero amplifier gain, a slope `s ≠ 0`, an offset `o`, temperatures `T1`, `T2` different
from -273.15 and nonzero readings `r1`, `r2` at least 50 counts apart, calibrating with the
pH values that the `readPh` formula yields for `r1` at `T1` and `r2` at `T2` under slope `s`
and offset `o`, starting with no pending point, returns 1 and then 0 and leaves
`probeSlope = s` and `probeOffset = o`, whatever the two fields were before. -/
theorem calibrateProbe_inverts_readPh (env : Env) (fuel1 fuel2 : Nat) (p : PhProbe)
    (stab1 stab2 : Bool) (w w1 v v1 : World) (r1 r2 : Nat) (s o T1 T2 : ℚ)
    (hgain : p.calibrationValues.ampGain ≠ 0) (hs : s ≠ 0)
    (hT1 : T1 ≠ -(27315 / 100)) (hT2 : T2 ≠ -(27315 / 100))
    (hr1 : r1 ≠ 0) (hr2 : r2 ≠ 0) (hfar : 50 ≤ |(r1 : ℤ) - (r2 : ℤ)|)
    (hpend : p.lastCalReading = 0)
    (hread1 : takeReading env fuel1 p stab1 p.numCalibrationSamples w = some (r1, w1))
    (hread2 : takeReading env fuel2 p stab2 p.numCalibrationSamples v = some (r2, v1)) :
    ∃ (pA pB : PhProbe),
      calibrateProbe env fuel1 p
          (phOfReading { p.calibrationValues with probeSlope := s, probeOffset := o } r1 T1)
          stab1 T1 w = some (1, pA, w1) ∧
      calibrateProbe env fuel2 pA
          (phOfReading { p.calibrationValues with probeSlope := s, probeOffset := o } r2 T2)
          stab2 T2 v = some (0, pB, v1) ∧
      pB.calibrationValues.probeSlope = s ∧ pB.calibrationValues.probeOffset = o := by
  have hne : r1 ≠ r2 := by
    intro h
    rw [h] at hfar
    simp at hfar
  have hK1 : T1 + 27315 / 100 ≠ 0 := fun h => hT1 (by linarith)
  have hK2 : T2 + 27315 / 100 ≠ 0 := fun h => hT2 (by linarith)
  have hV := probeVoltage_injective p.calibrationValues hgain r1 r2 hne
  have hfar2 : 50 ≤ |(r2 : ℤ) - (r1 : ℤ)| := by rwa [abs_sub_comm]
  have hcfg : SameConfig p
      { p with lastCalReading := r1,
               lastCalPh := phOfReading
                 { p.calibrationValues with probeSlope := s, probeOffset := o } r1 T1,
               lastCalTemp := T1 } := ⟨rfl, rfl, rfl⟩
  have hread2' := (takeReading_congr env fuel2 p _ hcfg stab2 p.numCalibrationSamples v).trans
    hread2
  have hA := calibrateWith_first p r1
    (phOfReading { p.calibrationValues with probeSlope := s, probeOffset := o } r1 T1) T1
    hr1 hpend
  have hB := calibrateWith_far
    { p with lastCalReading := r1,
             lastCalPh := phOfReading
               { p.calibrationValues with probeSlope := s, probeOffset := o } r1 T1,
             lastCalTemp := T1 } r2
    (phOfReading { p.calibrationValues with probeSlope := s, probeOffset := o } r2 T2) T2
    hr2 hr1 hfar2
  refine ⟨(calibrateWith p r1
      (phOfReading { p.calibrationValues with probeSlope := s, probeOffset := o } r1 T1) T1).2,
    (calibrateWith (calibrateWith p r1
      (phOfReading { p.calibrationValues with probeSlope := s, probeOffset := o } r1 T1) T1).2
      r2 (phOfReading { p.calibrationValues with probeSlope := s, probeOffset := o } r2 T2)
      T2).2, ?_, ?_, ?_, ?_⟩
  · rw [calibrateProbe_eq env fuel1 p _ stab1 T1 w w1 r1 hread1, hA]
  · rw [hA, calibrateProbe_eq env fuel2 _ _ stab2 T2 v v1 r2 hread2', hB]
  · rw [hA, hB]
    simp only [resetCalibrateProbe, phOfReading, probeVoltage]
    exact slope_recover _ _ o s nernstC _ _ _ hs nernstC_ne_zero hK1 hK2 hV
  · rw [hA, hB]
    simp only [resetCalibrateProbe, phOfReading, probeVoltage]
    have hsl := slope_recover (probeVoltage p.calibrationValues r1)
      (probeVoltage p.calibrationValues r2) o s nernstC (T1 + 27315 / 100) (T2 + 27315 / 100)
      p.calibrationValues.isoelectricPh hs nernstC_ne_zero hK1 hK2 hV
    simp only [probeVoltage] at hsl
    rw [hsl]
    exact offset_recover _ o s nernstC _ _ hs nernstC_ne_zero hK2


/-- Witness for C2: the default probe, ten samples of 200 at 25 degrees and then ten samples
of 300 at 30 degrees, synthesised with slope 2 and offset 1/2. -/
theorem calibrateProbe_inverts_readPh_witness :
    ∃ (pA pB : PhProbe),
      calibrateProbe (listEnv (List.replicate 10 200 ++ [300]) [0]) 0 {}
          (phOfReading { ({} : PhProbe).calibrationValues with
            probeSlope := 2, probeOffset := 1 / 2 } 200 25)
          false 25 {} = some (1, pA, afterRead {} 10 {}) ∧
      calibrateProbe (listEnv (List.replicate 10 200 ++ [300]) [0]) 0 pA
          (phOfReading { ({} : PhProbe).calibrationValues with
            probeSlope := 2, probeOffset := 1 / 2 } 300 30)
          false 30 (afterRead {} 10 {}) = some (0, pB, afterRead {} 10 (afterRead {} 10 {})) ∧
      pB.calibrationValues.probeSlope = 2 ∧ pB.calibrationValues.probeOffset = 1 / 2 :=
  calibrateProbe_inverts_readPh (listEnv (List.replicate 10 200 ++ [300]) [0]) 0 0 {}
    false false {} (afterRead {} 10 {}) (afterRead {} 10 {})
    (afterRead {} 10 (afterRead {} 10 {})) 200 300 2 (1 / 2) 25 30
    (by norm_num) (by norm_num) (by norm_num) (by norm_num) (by decide) (by decide)
    (by decide) rfl (by decide) (by decide)


/-- C3 (failing input): with 65 samples that are all 1023 the `uint16_t` accumulator of
`readRaw` wraps (65 * 1023 = 66495 = 65536 + 959) and `readRaw(65)` returns 959 / 65 = 14,
whereas the floor of the true average of the samples is 1023. -/
theorem readRaw_wraps_at_65 :
    (∀ pin k, (constEnv 1023 1).adc pin k ≤ 1023) ∧
    readRaw (constEnv 1023 1) {} 65 {} = some (14, afterRead {} 65 {}) ∧
    sampleSum (constEnv 1023 1) 0 0 65 / 65 = 1023 := by
  refine ⟨fun _ _ => le_refl _, by decide, ?_⟩
  simp [sampleSum, constEnv]


/-- C4 (failing input): the default probe (stabilisation delay 6 s), every sample 500, and a
monotone clock that reads 4294967196 on entry, 4294967200 when the first reading is
observed and 4294967250 at the next check. The deadline `millis() + 6000` wraps around
`2 ^ 32` to 5904, so the second reading is accepted 50 ms after the first one was
observed instead of after 6000 ms. -/
theorem readStableValue_early_return_at_rollover :
    readStableValue (listEnv [500] [4294967196, 4294967200, 4294967250]) 2 {} 5 {}
      = some (500, { reads := 10, clockReads := 3, delays := List.replicate 8 1 }) ∧
    (listEnv [500] [4294967196, 4294967200, 4294967250]).clock 0 = 4294967196 ∧
    (listEnv [500] [4294967196, 4294967200, 4294967250]).clock 1 = 4294967200 ∧
    (listEnv [500] [4294967196, 4294967200, 4294967250]).clock 2 = 4294967250 ∧
    (4294967200 + stabilizeDelayMs (listEnv [500] [4294967196, 4294967200, 4294967250]) {})
      % 2 ^ 32 = 5904 ∧
    4294967250 < 4294967200 + ({} : PhProbe).stabilizeDelaySecs * 1000 := by
  decide


/-- C5 (counterexample): a first averaged reading of 0 is the placeholder for "no previous
value". With the readings 0, 200, 150, 170, 180 (one sample each) the fall from 200 to 150
is the first recorded direction, the reversal is detected at 170 and the fifth reading 180
is returned, not the fourth reading 170. Moreover, on a target with 16-bit `int` and a
stabilisation delay of 66 s the product `66 * 1000` wraps to 464, so after the readings
100, 200, 150 the reversal is followed by a sleep of 464 ms, not of 66 s. -/
theorem readStableValue_reversal_missed_after_zero :
    rawAt (listEnv [0, 200, 150, 170, 180] [0]) {} 1 0 = 0 ∧
    rawAt (listEnv [0, 200, 150, 170, 180] [0]) {} 1 1 = 200 ∧
    rawAt (listEnv [0, 200, 150, 170, 180] [0]) {} 1 2 = 150 ∧
    rawAt (listEnv [0, 200, 150, 170, 180] [0]) {} 1 3 = 170 ∧
    readStableValue (listEnv [0, 200, 150, 170, 180] [0]) 4 {} 1 {}
      = some (180, { reads := 5, clockReads := 5, delays := [6000] }) ∧
    (listEnv [100, 200, 150, 170] [0]).intModulus = 2 ^ 16 ∧
    readStableValue (listEnv [100, 200, 150, 170] [0]) 3 { stabilizeDelaySecs := 66 } 1 {}
      = some (170, { reads := 4, clockReads := 4, delays := [464] }) := by
  decide

/-- C5 (amended): if the first three averaged readings `a`, `b`, `c` satisfy `0 < a < b` and
`c < b`, then for every clock `readStableValue` returns the fourth reading, after exactly
three loop iterations, having requested exactly one `delay` of `stabilizeDelaySecs * 1000`
milliseconds between the third and the fourth reading (the other delays are the sample
intervals inside `readRaw`); the product `stabilizeDelaySecs * 1000` is assumed not to
exceed the range of the target's `unsigned int`. -/
theorem readStableValue_reversal (env : Env) (p : PhProbe) (samples fuel : Nat) (w : World)
    (hs : samples ≠ 0) (hfuel : 3 ≤ fuel)
    (hint : p.stabilizeDelaySecs * 1000 < env.intModulus)
    (ha : 0 < rawAt env p samples w.reads)
    (hab : rawAt env p samples w.reads < rawAt env p samples (w.reads + samples))
    (hcb : rawAt env p samples (w.reads + 2 * samples)
      < rawAt env p samples (w.reads + samples)) :
    readStableValue env fuel p samples w
      = some (rawAt env p samples (w.reads + 3 * samples),
          { reads := w.reads + 4 * samples,
            clockReads := w.clockReads + 4,
            delays := w.delays ++ List.replicate (samples - 1) p.sampleInterval
              ++ List.replicate (samples - 1) p.sampleInterval
              ++ List.replicate (samples - 1) p.sampleInterval
              ++ [p.stabilizeDelaySecs * 1000]
              ++ List.replicate (samples - 1) p.sampleInterval }) := by
  obtain ⟨k, rfl⟩ : ∃ k, fuel = k + 3 := ⟨fuel - 3, by omega⟩
  have hms : stabilizeDelayMs env p = p.stabilizeDelaySecs * 1000 :=
    Nat.mod_eq_of_lt hint
  have e2 : (afterCycle env p samples (afterCycle env p samples (millis env w).2)).reads
      = w.reads + 2 * samples := by
    simp only [afterCycle_reads, millis]
    omega
  have e3 : (afterCycle env p samples (afterCycle env p samples (millis env w).2)).reads
      + samples = w.reads + 3 * samples := by
    rw [e2]
    omega
  have h1 : rawAt env p samples (millis env w).2.reads ≠ 0 := Nat.pos_iff_ne_zero.mp ha
  have hab2 : rawAt env p samples (millis env w).2.reads
      < rawAt env p samples (afterCycle env p samples (millis env w).2).reads := hab
  have hcb2 : rawAt env p samples
      (afterCycle env p samples (afterCycle env p samples (millis env w).2)).reads
      < rawAt env p samples (afterCycle env p samples (millis env w).2).reads := by
    rw [e2]
    exact hcb
  have hdir1 : directionOf
      (rawAt env p samples (afterCycle env p samples (millis env w).2).reads)
      (rawAt env p samples (millis env w).2.reads) = 1 := by
    unfold directionOf
    rw [if_pos hab2]
  have hdir2 : directionOf
      (rawAt env p samples
        (afterCycle env p samples (afterCycle env p samples (millis env w).2)).reads)
      (rawAt env p samples (afterCycle env p samples (millis env w).2).reads) = -1 := by
    unfold directionOf
    rw [if_neg (Nat.lt_asymm hcb2)]
  unfold readStableValue
  rw [readStableValueLoop_change env p samples (k + 2) _ 0 0 _ hs h1 (by simp)]
  simp only [ne_eq, not_true_eq_false, if_false]
  rw [readStableValueLoop_change env p samples (k + 1) _ 0 _ _ hs (Nat.ne_of_gt hab2) (by simp)]
  rw [if_pos h1, hdir1]
  rw [readStableValueLoop_reversal env p samples k _ 1 _ _ hs (Nat.ne_of_lt hcb2)
    ⟨by norm_num, by rw [hdir2]; norm_num⟩]
  rw [hms, e3]
  simp only [afterCycle, afterRead, delay, millis, Option.some.injEq, Prod.mk.injEq,
    World.mk.injEq, true_and]
  refine ⟨by omega, by simp⟩

/-- Witness for C5 (amended): the default probe, one sample per reading, readings 100, 200,
150, 170 and a clock that stands still. -/
theorem readStableValue_reversal_witness :
    readStableValue (listEnv [100, 200, 150, 170] [0]) 3 {} 1 {}
      = some (170, { reads := 4, clockReads := 4, delays := [6000] }) :=
  readStableValue_reversal (listEnv [100, 200, 150, 170] [0]) {} 1 3 {}
    (by decide) (by decide) (by decide) (by decide) (by decide) (by decide)


/-- C6: in exact arithmetic, for a fixed temperature above -273.15 and fixed coefficients
with `ampGain > 0` and `probeSlope > 0`, the pH computed by `readPh` is strictly decreasing
in the averaged ADC reading: a call that takes reading `r1` and a call that takes a larger
reading `r2` return pH values `ph1 > ph2`. -/
theorem readPh_decreasing (env : Env) (fuel1 fuel2 : Nat) (p : PhProbe)
    (stab1 stab2 : Bool) (temperature : ℚ) (w w1 v v1 : World) (r1 r2 : Nat)
    (hg : 0 < p.calibrationValues.ampGain) (hs : 0 < p.calibrationValues.probeSlope)
    (hT : -(27315 / 100) < temperature) (hr : r1 < r2)
    (hread1 : takeReading env fuel1 p stab1 p.numSamples w = some (r1, w1))
    (hread2 : takeReading env fuel2 p stab2 p.numSamples v = some (r2, v1)) :
    ∃ (ph1 ph2 : ℚ),
      readPh env fuel1 p stab1 temperature w = some (ph1, w1) ∧
      readPh env fuel2 p stab2 temperature v = some (ph2, v1) ∧
      ph1 = phOfReading p.calibrationValues r1 temperature ∧
      ph2 = phOfReading p.calibrationValues r2 temperature ∧
      ph2 < ph1 :=
  ⟨_, _, readPh_eq env fuel1 p stab1 temperature w w1 r1 hread1,
    readPh_eq env fuel2 p stab2 temperature v v1 r2 hread2, rfl, rfl,
    phOfReading_strictAnti p.calibrationValues temperature r1 r2 hg hs hT hr⟩

/-- Witness for C6: gain 2, slope 1, 23 degrees, five samples of 200 and then five
samples of 300. -/
theorem readPh_decreasing_witness :
    ∃ (ph1 ph2 : ℚ),
      readPh (listEnv (List.replicate 5 200 ++ [300]) [0]) 0
        { calibrationValues := { ampGain := 2 } } false 23 {}
        = some (ph1, afterRead {} 5 {}) ∧
      readPh (listEnv (List.replicate 5 200 ++ [300]) [0]) 0
        { calibrationValues := { ampGain := 2 } } false 23 (afterRead {} 5 {})
        = some (ph2, afterRead {} 5 (afterRead {} 5 {})) ∧
      ph1 = phOfReading { ampGain := 2 } 200 23 ∧
      ph2 = phOfReading { ampGain := 2 } 300 23 ∧
      ph2 < ph1 :=
  readPh_decreasing (listEnv (List.replicate 5 200 ++ [300]) [0]) 0 0
    { calibrationValues := { ampGain := 2 } } false false 23 {} (afterRead {} 5 {})
    (afterRead {} 5 {}) (afterRead {} 5 (afterRead {} 5 {})) 200 300
    (by norm_num) (by norm_num) (by norm_num) (by decide) (by decide) (by decide)

/-- C7: whenever `calibrateProbe` returns 2, afterwards no calibration point is pending
(`lastCalReading = 0`) and every calibration coefficient (`ampGain`, `ampOffset`,
`probeSlope`, `probeOffset`, `isoelectricPh`) is unchanged: the new state is the old one
with the pending reading cleared. No assumption is made on the state before the call, so
this holds whether or not a first point was pending. -/
theorem calibrateProbe_error_resets (env : Env) (fuel : Nat) (p p1 : PhProbe) (pH : ℚ)
    (stabilize : Bool) (temperature : ℚ) (w w1 : World)
    (h : calibrateProbe env fuel p pH stabilize temperature w = some (2, p1, w1)) :
    p1.lastCalReading = 0 ∧
    p1.calibrationValues.ampGain = p.calibrationValues.ampGain ∧
    p1.calibrationValues.ampOffset = p.calibrationValues.ampOffset ∧
    p1.calibrationValues.probeSlope = p.calibrationValues.probeSlope ∧
    p1.calibrationValues.probeOffset = p.calibrationValues.probeOffset ∧
    p1.calibrationValues.isoelectricPh = p.calibrationValues.isoelectricPh ∧
    p1 = resetCalibrateProbe p := by
  obtain ⟨r, hst, hp1, _⟩ := calibrateProbe_inv env fuel p pH stabilize temperature w 2 p1 w1 h
  have key : p1 = resetCalibrateProbe p := by
    rw [calibrateWith_status] at hst
    by_cases h0 : r = 0
    · subst h0
      rw [calibrateWith_zero] at hp1
      exact hp1.symm
    by_cases hp : p.lastCalReading = 0
    · simp [h0, hp] at hst
    by_cases hn : |(r : ℤ) - (p.lastCalReading : ℤ)| < 50
    · rw [calibrateWith_near p r pH temperature h0 hp hn] at hp1
      exact hp1.symm
    · simp [h0, hp, hn] at hst
  subst key
  exact ⟨rfl, rfl, rfl, rfl, rfl, rfl, rfl⟩

/-- Witness for C7: the default probe with a pending reading of 100 and ten samples of 149
(49 counts away). -/
theorem calibrateProbe_error_resets_witness :
    (resetCalibrateProbe { lastCalReading := 100 }).lastCalReading = 0 ∧
    (resetCalibrateProbe { lastCalReading := 100 }).calibrationValues.ampGain
      = ({ lastCalReading := 100 } : PhProbe).calibrationValues.ampGain ∧
    (resetCalibrateProbe { lastCalReading := 100 }).calibrationValues.ampOffset
      = ({ lastCalReading := 100 } : PhProbe).calibrationValues.ampOffset ∧
    (resetCalibrateProbe { lastCalReading := 100 }).calibrationValues.probeSlope
      = ({ lastCalReading := 100 } : PhProbe).calibrationValues.probeSlope ∧
    (resetCalibrateProbe { lastCalReading := 100 }).calibrationValues.probeOffset
      = ({ lastCalReading := 100 } : PhProbe).calibrationValues.probeOffset ∧
    (resetCalibrateProbe { lastCalReading := 100 }).calibrationValues.isoelectricPh
      = ({ lastCalReading := 100 } : PhProbe).calibrationValues.isoelectricPh ∧
    resetCalibrateProbe { lastCalReading := 100 }
      = resetCalibrateProbe { lastCalReading := 100 } :=
  calibrateProbe_error_resets (constEnv 149 1) 0 { lastCalReading := 100 }
    (resetCalibrateProbe { lastCalReading := 100 }) 4 false 25 {} (afterRead {} 10 {})
    (by
      rw [calibrateProbe_eq (constEnv 149 1) 0 { lastCalReading := 100 } 4 false 25 {}
        (afterRead {} 10 {}) 149 (by decide)]
      rw [calibrateWith_near { lastCalReading := 100 } 149 4 25 (by decide) (by decide)
        (by decide)])


/-- C8: `probeSlope` and `probeOffset` change only when a two-point calibration completes.
`resetCalibrateProbe`, `calibrateAmpOffset`, `calibrateAmpGain`, every `calibrateProbe` call
with status 1 or 2 and every `autoCalibrateProbe` call whose delegated `calibrateProbe`
call has status 1 or 2 leave both fields unchanged; a `calibrateProbe` call with status 0
writes both (the two-point slope and offset of the pending point and the new reading) and
leaves `ampGain`, `ampOffset` and `isoelectricPh` unchanged. (`readPh` and
`getIdealAmpGain` assign no member in the source and therefore return no probe state in
the embedding; the state that `autoCalibrateProbe` hands to `calibrateProbe` after its
`readPh` call is the state before the call.) -/
theorem probeSlope_probeOffset_frame (env : Env) (fuel : Nat) (p : PhProbe)
    (pH temperature testVoltage : ℚ) (stabilize : Bool) (w : World) :
    ((resetCalibrateProbe p).calibrationValues = p.calibrationValues) ∧
    (∀ p1 w1, calibrateAmpOffset env p w = some (p1, w1) →
      p1.calibrationValues.probeSlope = p.calibrationValues.probeSlope ∧
      p1.calibrationValues.probeOffset = p.calibrationValues.probeOffset) ∧
    (∀ p1 w1, calibrateAmpGain env p testVoltage w = some (p1, w1) →
      p1.calibrationValues.probeSlope = p.calibrationValues.probeSlope ∧
      p1.calibrationValues.probeOffset = p.calibrationValues.probeOffset) ∧
    (∀ st p1 w1, calibrateProbe env fuel p pH stabilize temperature w = some (st, p1, w1) →
      (st = 1 ∨ st = 2) →
      p1.calibrationValues.probeSlope = p.calibrationValues.probeSlope ∧
      p1.calibrationValues.probeOffset = p.calibrationValues.probeOffset) ∧
    (∀ p1 w1, calibrateProbe env fuel p pH stabilize temperature w = some (0, p1, w1) →
      ∃ r, takeReading env fuel p stabilize p.numCalibrationSamples w = some (r, w1) ∧
        p1.calibrationValues.probeSlope
          = twoPointSlope p.calibrationValues p.lastCalReading p.lastCalPh p.lastCalTemp
              r pH temperature ∧
        p1.calibrationValues.probeOffset
          = twoPointOffset p.calibrationValues p.lastCalReading p.lastCalPh p.lastCalTemp
              r pH temperature ∧
        p1.calibrationValues.ampGain = p.calibrationValues.ampGain ∧
        p1.calibrationValues.ampOffset = p.calibrationValues.ampOffset ∧
        p1.calibrationValues.isoelectricPh = p.calibrationValues.isoelectricPh) ∧
    (∀ res p1 w2, autoCalibrateProbe env fuel p stabilize temperature w = some (res, p1, w2) →
      ∃ st, calibrateProbe env fuel p
          (standardValue (nominalStandard (initialGuessPh env p temperature w)) temperature)
          stabilize temperature (afterRead p 1 w) = some (st, p1, w2) ∧
        ((st = 1 ∨ st = 2) →
          p1.calibrationValues.probeSlope = p.calibrationValues.probeSlope ∧
          p1.calibrationValues.probeOffset = p.calibrationValues.probeOffset)) := by
  have hcal : ∀ (pH2 : ℚ) (v : World) (st : Nat) (p1 : PhProbe) (w1 : World),
      calibrateProbe env fuel p pH2 stabilize temperature v = some (st, p1, w1) →
      (st = 1 ∨ st = 2) →
      p1.calibrationValues.probeSlope = p.calibrationValues.probeSlope ∧
      p1.calibrationValues.probeOffset = p.calibrationValues.probeOffset := by
    intro pH2 v st p1 w1 h hst
    obtain ⟨r, h1, h2, _⟩ := calibrateProbe_inv env fuel p pH2 stabilize temperature v st p1 w1 h
    have hne : (calibrateWith p r pH2 temperature).1 ≠ 0 := by
      rw [h1]
      rcases hst with h | h <;> rw [h] <;> norm_num
    have := calibrateWith_frame p r pH2 temperature hne
    rw [h2] at this
    rw [this]
    exact ⟨rfl, rfl⟩
  refine ⟨rfl, ?_, ?_, hcal pH w, ?_, ?_⟩
  · intro p1 w1 h
    by_cases hs : p.numCalibrationSamples = 0
    · simp [calibrateAmpOffset, hs, readRaw_zero] at h
    · rw [calibrateAmpOffset_eq env p w hs] at h
      simp only [Option.some.injEq, Prod.mk.injEq] at h
      rw [← h.1]
      exact ⟨rfl, rfl⟩
  · intro p1 w1 h
    by_cases hs : p.numCalibrationSamples = 0
    · simp [calibrateAmpGain, hs, readRaw_zero] at h
    · rw [calibrateAmpGain_eq env p testVoltage w hs] at h
      simp only [Option.some.injEq, Prod.mk.injEq] at h
      rw [← h.1]
      exact ⟨rfl, rfl⟩
  · intro p1 w1 h
    obtain ⟨r, h1, h2, h3⟩ := calibrateProbe_inv env fuel p pH stabilize temperature w 0 p1 w1 h
    obtain ⟨hr, hp, hfar⟩ := calibrateWith_status_zero p r pH temperature h1
    obtain ⟨_, e1, e2, e3, e4, e5, _⟩ := calibrateWith_far_fields p r pH temperature hr hp hfar
    rw [h2] at e1 e2 e3 e4 e5
    exact ⟨r, h3, e1, e2, e3, e4, e5⟩
  · intro res p1 w2 h
    obtain ⟨st, h1, _⟩ := autoCalibrateProbe_inv env fuel p stabilize temperature w res p1 w2 h
    exact ⟨st, h1, hcal _ _ st p1 w2 h1⟩


/-- Witness for C8: the default probe with every ADC sample 500. The amplifier
calibrations and a first calibration point (status 1, directly and through
`autoCalibrateProbe`) leave slope and offset at their defaults 1 and 0; with a pending
reading of 300 the call has status 0 and leaves the amplifier coefficients and the
isoelectric pH at their defaults. -/
theorem probeSlope_probeOffset_frame_witness :
    (∃ p1 w1, calibrateAmpOffset (constEnv 500 1) {} {} = some (p1, w1) ∧
      p1.calibrationValues.probeSlope = ({} : PhProbe).calibrationValues.probeSlope ∧
      p1.calibrationValues.probeOffset = ({} : PhProbe).calibrationValues.probeOffset) ∧
    (∃ p1 w1, calibrateAmpGain (constEnv 500 1) {} (1 / 10) {} = some (p1, w1) ∧
      p1.calibrationValues.probeSlope = ({} : PhProbe).calibrationValues.probeSlope ∧
      p1.calibrationValues.probeOffset = ({} : PhProbe).calibrationValues.probeOffset) ∧
    (∃ p1 w1, calibrateProbe (constEnv 500 1) 0 {} 7 false 25 {} = some (1, p1, w1) ∧
      p1.calibrationValues.probeSlope = ({} : PhProbe).calibrationValues.probeSlope ∧
      p1.calibrationValues.probeOffset = ({} : PhProbe).calibrationValues.probeOffset) ∧
    (∃ p1 w1 r,
      calibrateProbe (constEnv 500 1) 0 { lastCalReading := 300 } 7 false 25 {}
        = some (0, p1, w1) ∧
      takeReading (constEnv 500 1) 0 { lastCalReading := 300 } false 10 {} = some (r, w1) ∧
      p1.calibrationValues.probeSlope
        = twoPointSlope {} 300 0 0 r 7 25 ∧
      p1.calibrationValues.probeOffset
        = twoPointOffset {} 300 0 0 r 7 25 ∧
      p1.calibrationValues.ampGain = -491 / 100 ∧
      p1.calibrationValues.ampOffset = 2 ∧
      p1.calibrationValues.isoelectricPh = 7) ∧
    (∃ res p1 w2 st, autoCalibrateProbe (constEnv 500 1) 0 {} false 25 {} = some (res, p1, w2) ∧
      calibrateProbe (constEnv 500 1) 0 {}
        (standardValue (nominalStandard (initialGuessPh (constEnv 500 1) {} 25 {})) 25)
        false 25 (afterRead {} 1 {}) = some (st, p1, w2) ∧
      st = 1 ∧
      p1.calibrationValues.probeSlope = ({} : PhProbe).calibrationValues.probeSlope ∧
      p1.calibrationValues.probeOffset = ({} : PhProbe).calibrationValues.probeOffset) := by
  have hO := calibrateAmpOffset_eq (constEnv 500 1) {} {} (by decide)
  have hG := calibrateAmpGain_eq (constEnv 500 1) {} (1 / 10) {} (by decide)
  have h1 := calibrateProbe_eq (constEnv 500 1) 0 {} 7 false 25 {} (afterRead {} 10 {}) 500
    (by decide)
  rw [calibrateWith_first {} 500 7 25 (by decide) rfl] at h1
  have h0 := calibrateProbe_eq (constEnv 500 1) 0 { lastCalReading := 300 } 7 false 25 {}
    (afterRead {} 10 {}) 500 (by decide)
  rw [calibrateWith_far { lastCalReading := 300 } 500 7 25 (by decide) (by decide)
    (by decide)] at h0
  have hAc := calibrateProbe_eq (constEnv 500 1) 0 {}
    (standardValue (nominalStandard (initialGuessPh (constEnv 500 1) {} 25 {})) 25)
    false 25 (afterRead {} 1 {}) (afterRead {} 10 (afterRead {} 1 {})) 500 (by decide)
  rw [calibrateWith_first {} 500 _ 25 (by decide) rfl] at hAc
  have hA := autoCalibrateProbe_eq (constEnv 500 1) 0 {} false 25 {}
  rw [hAc] at hA
  dsimp only at hA
  rw [if_neg (by decide)] at hA
  refine ⟨⟨_, _, hO, ?_⟩, ⟨_, _, hG, ?_⟩, ⟨_, _, h1, ?_⟩, ?_, ?_⟩
  · exact (probeSlope_probeOffset_frame (constEnv 500 1) 0 {} 7 25 (1 / 10) false {}).2.1
      _ _ hO
  · exact (probeSlope_probeOffset_frame (constEnv 500 1) 0 {} 7 25 (1 / 10) false {}).2.2.1
      _ _ hG
  · exact (probeSlope_probeOffset_frame (constEnv 500 1) 0 {} 7 25 (1 / 10) false {}).2.2.2.1
      _ _ _ h1 (Or.inl rfl)
  · obtain ⟨r, hr, e1, e2, e3, e4, e5⟩ :=
      (probeSlope_probeOffset_frame (constEnv 500 1) 0 { lastCalReading := 300 } 7 25
        (1 / 10) false {}).2.2.2.2.1 _ _ h0
    exact ⟨_, _, r, h0, hr, e1, e2, e3, e4, e5⟩
  · obtain ⟨st, hst, hfr⟩ :=
      (probeSlope_probeOffset_frame (constEnv 500 1) 0 {} 7 25 (1 / 10) false {}).2.2.2.2.2
        _ _ _ hA
    have hst1 : st = 1 := by
      rw [hAc] at hst
      simp only [Option.some.injEq, Prod.mk.injEq] at hst
      exact hst.1.symm
    exact ⟨_, _, _, st, hA, hst, hst1, hfr (Or.inl hst1)⟩


/-- C9: `autoCalibrateProbe` is taken with the `float` arithmetic of its `readPh` call
left open (`ph`; binary32 is `phOfReadingFloat`), so that `g` below is the guess as the
target computes it, rounding, infinities and `nan` included. If the delegated
`calibrateProbe` call returns status `st`, then `autoCalibrateProbe` returns 0 if and only
if `st = 2`, and otherwise the nominal standard chosen from the single-sample guess `g`:
for a finite `g` of value `x`, 10 exactly when `x ≥ 8.5`, 4 exactly when `x ≤ 5.5`, 7
exactly when `5.5 < x < 8.5`; `+∞` gives 10, `-∞` gives 4 and `nan` gives 7. The result is
one of 0, 4, 7, 10 (the nominal number, not the temperature-adjusted pH `standardValue`
handed to `calibrateProbe`). -/
theorem autoCalibrateProbe_result (ph : CalibrationValues → Nat → ℚ → FloatValue)
    (env : Env) (fuel : Nat) (p p3 : PhProbe) (stabilize : Bool)
    (temperature : ℚ) (w w2 : World) (st : Nat)
    (hcal : calibrateProbe env fuel p
        (standardValue (nominalStandardFloat (initialGuessVia ph env p temperature w))
          temperature)
        stabilize temperature (afterRead p 1 w) = some (st, p3, w2)) :
    ∃ res, autoCalibrateProbeVia ph env fuel p stabilize temperature w = some (res, p3, w2) ∧
      (res = 0 ↔ st = 2) ∧
      res = (if st = 2 then 0
        else nominalStandardFloat (initialGuessVia ph env p temperature w)) ∧
      (∀ x, (initialGuessVia ph env p temperature w).value = some x →
        (nominalStandardFloat (initialGuessVia ph env p temperature w) = 10 ↔ 85 / 10 ≤ x) ∧
        (nominalStandardFloat (initialGuessVia ph env p temperature w) = 4 ↔ x ≤ 55 / 10) ∧
        (nominalStandardFloat (initialGuessVia ph env p temperature w) = 7
          ↔ 55 / 10 < x ∧ x < 85 / 10)) ∧
      (initialGuessVia ph env p temperature w = FloatValue.inf false →
        nominalStandardFloat (initialGuessVia ph env p temperature w) = 10) ∧
      (initialGuessVia ph env p temperature w = FloatValue.inf true →
        nominalStandardFloat (initialGuessVia ph env p temperature w) = 4) ∧
      (initialGuessVia ph env p temperature w = FloatValue.nan →
        nominalStandardFloat (initialGuessVia ph env p temperature w) = 7) ∧
      (res = 0 ∨ res = 4 ∨ res = 7 ∨ res = 10) := by
  have hnom := nominalStandardFloat_mem (initialGuessVia ph env p temperature w)
  refine ⟨if st = 2 then 0 else nominalStandardFloat (initialGuessVia ph env p temperature w),
    ?_, ?_, rfl, ?_, ?_, ?_, ?_, ?_⟩
  · rw [autoCalibrateProbeVia_eq, hcal]
    by_cases h2 : st = 2
    · simp [h2]
    · simp [h2]
  · by_cases h2 : st = 2
    · simp [h2]
    · simp only [h2, if_false, iff_false]
      rcases hnom with h | h | h <;> rw [h] <;> norm_num
  · intro x hx
    cases hg : initialGuessVia ph env p temperature w with
    | nan => rw [hg] at hx; simp [FloatValue.value] at hx
    | inf s => rw [hg] at hx; simp [FloatValue.value] at hx
    | num s m =>
      rw [hg] at hx
      simp only [FloatValue.value, Option.some.injEq] at hx
      rw [nominalStandardFloat_num, hx]
      exact nominalStandard_cases x
  · intro h
    rw [h]
    exact nominalStandardFloat_special.1
  · intro h
    rw [h]
    exact nominalStandardFloat_special.2.1
  · intro h
    rw [h]
    exact nominalStandardFloat_special.2.2
  · by_cases h2 : st = 2
    · exact Or.inl (by simp [h2])
    · simp only [h2, if_false]
      rcases hnom with h | h | h
      · exact Or.inr (Or.inr (Or.inr h))
      · exact Or.inr (Or.inl h)
      · exact Or.inr (Or.inr (Or.inl h))

/-- Witness for C9, in binary32: gain -5 (the other coefficients at their defaults), every
ADC sample 500 and the temperature `6144497 / 262144` (the `float` 23.4393959). The exact
value of the pH formula there is just below 8.5, the binary32 guess is exactly 8.5, and
the call returns 10; the delegated call stores the first point (status 1). -/
theorem autoCalibrateProbe_result_witness :
    phOfReading { ampGain := -5 } 500 (6144497 / 262144) < 85 / 10 ∧
    initialGuessVia phOfReadingFloat (constEnv 500 1) { calibrationValues := { ampGain := -5 } }
      (6144497 / 262144) {} = FloatValue.num false (17 / 2) ∧
    autoCalibrateProbeVia phOfReadingFloat (constEnv 500 1) 0
        { calibrationValues := { ampGain := -5 } } false (6144497 / 262144) {}
      = some (10,
          { calibrationValues := { ampGain := -5 },
            lastCalReading := 500,
            lastCalPh := standardValue 10 (6144497 / 262144),
            lastCalTemp := 6144497 / 262144 },
          afterRead {} 10 (afterRead {} 1 {})) := by
  have hg : initialGuessVia phOfReadingFloat (constEnv 500 1)
      { calibrationValues := { ampGain := -5 } } (6144497 / 262144) {}
      = FloatValue.num false (17 / 2) := by decide!
  have hn : nominalStandardFloat (initialGuessVia phOfReadingFloat (constEnv 500 1)
      { calibrationValues := { ampGain := -5 } } (6144497 / 262144) {}) = 10 := by
    rw [hg]
    decide!
  obtain ⟨res, hres, _, hval, _⟩ :=
    autoCalibrateProbe_result phOfReadingFloat (constEnv 500 1) 0
      { calibrationValues := { ampGain := -5 } }
      { calibrationValues := { ampGain := -5 },
        lastCalReading := 500,
        lastCalPh := standardValue 10 (6144497 / 262144),
        lastCalTemp := 6144497 / 262144 }
      false (6144497 / 262144) {} (afterRead {} 10 (afterRead {} 1 {})) 1
      (by
        rw [hn]
        exact (calibrateProbe_eq (constEnv 500 1) 0
          { calibrationValues := { ampGain := -5 } }
          (standardValue 10 (6144497 / 262144)) false (6144497 / 262144) (afterRead {} 1 {})
          (afterRead {} 10 (afterRead {} 1 {})) 500 (by decide)).trans
          (by rw [calibrateWith_first _ 500 _ _ (by decide) rfl]))
  rw [hn] at hval
  rw [if_neg (by decide)] at hval
  rw [hval] at hres
  refine ⟨?_, hg, hres⟩
  unfold phOfReading probeVoltage nernstC ADC_FACTOR
  norm_num


/-- C10 (failing input): at 700 degrees `temp / 5 - 1 = 139` does not fit the `int8_t` key;
the low byte is -117, which the clamp takes for a temperature below the table, so the three
functions return their first entries 0.00, 0.09, 0.25 instead of the last entries 0.09,
-0.03, -0.22. Likewise at -640 degrees the key -129 wraps to 127 and the last entries are
returned instead of the first. The index itself stays in `[0, 11]`. -/
theorem getNISTTempOffset_key_wraps :
    getNIST4TempOffset 700 = 0 ∧ getNIST7TempOffset 700 = 9 / 100 ∧
    getNIST10TempOffset 700 = 25 / 100 ∧
    nistIndex 700 = 0 ∧
    getNIST4TempOffset (-640) = 9 / 100 ∧ getNIST7TempOffset (-640) = -3 / 100 ∧
    getNIST10TempOffset (-640) = -22 / 100 ∧
    nistIndex (-640) = 11 := by
  unfold getNIST4TempOffset getNIST7TempOffset getNIST10TempOffset
  rw [nistIndex_700, nistIndex_neg640]
  obtain ⟨a4, a7, a10⟩ := tableEntry_first
  obtain ⟨b4, b7, b10⟩ := tableEntry_last
  exact ⟨a4, a7, a10, rfl, b4, b7, b10, rfl⟩


/-- C11: for every temperature `5 ≤ t < 65` each of the three NIST offset functions returns
`table[⌊t / 5⌋ - 1] / 100` for its table (standard 4: 0,0,0,0,0,1,2,3,4,6,7,9; standard 7:
9,6,4,2,0,-1,-2,-3,-3,-4,-4,-3; standard 10: 25,18,12,6,1,-3,-7,-11,-14,-17,-19,-22); the
index `⌊t / 5⌋ - 1` lies in `[0, 11]`, and the truncating `int8_t` conversion of
`t / 5 - 1` agrees with the floor on this range. -/
theorem getNISTTempOffset_bucket (temp : ℚ) (hlo : 5 ≤ temp) (hhi : temp < 65) :
    nist4Table = [0, 0, 0, 0, 0, 1, 2, 3, 4, 6, 7, 9] ∧
    nist7Table = [9, 6, 4, 2, 0, -1, -2, -3, -3, -4, -4, -3] ∧
    nist10Table = [25, 18, 12, 6, 1, -3, -7, -11, -14, -17, -19, -22] ∧
    toInt8 (temp / 5 - 1) = ⌊temp / 5 - 1⌋ ∧
    nistIndex temp = ⌊temp / 5⌋ - 1 ∧
    0 ≤ ⌊temp / 5⌋ - 1 ∧ ⌊temp / 5⌋ - 1 ≤ 11 ∧
    getNIST4TempOffset temp
      = ((nist4Table.getD (⌊temp / 5⌋ - 1).toNat 0 : ℤ) : ℚ) / 100 ∧
    getNIST7TempOffset temp
      = ((nist7Table.getD (⌊temp / 5⌋ - 1).toNat 0 : ℤ) : ℚ) / 100 ∧
    getNIST10TempOffset temp
      = ((nist10Table.getD (⌊temp / 5⌋ - 1).toNat 0 : ℤ) : ℚ) / 100 := by
  obtain ⟨hconv, hidx, h0, h11⟩ := nistIndex_bucket temp hlo hhi
  refine ⟨rfl, rfl, rfl, ?_, hidx, h0, h11, ?_, ?_, ?_⟩
  · rw [hconv, Int.floor_sub_one]
  · unfold getNIST4TempOffset tableEntry
    rw [hidx]
    ring
  · unfold getNIST7TempOffset tableEntry
    rw [hidx]
    ring
  · unfold getNIST10TempOffset tableEntry
    rw [hidx]
    ring

/-- Witness for C11: the bucket boundaries 5, 10 and 60 use the indices 0, 1 and 11. -/
theorem getNISTTempOffset_bucket_witness :
    nistIndex 5 = 0 ∧ nistIndex 10 = 1 ∧ nistIndex 60 = 11 ∧
    getNIST4TempOffset 60 = 9 / 100 ∧ getNIST7TempOffset 10 = 6 / 100 ∧
    getNIST10TempOffset 5 = 25 / 100 := by
  have f5 : ⌊(5 : ℚ) / 5⌋ = 1 := by
    rw [show (5 : ℚ) / 5 = ((1 : ℤ) : ℚ) by norm_num, Int.floor_intCast]
  have f10 : ⌊(10 : ℚ) / 5⌋ = 2 := by
    rw [show (10 : ℚ) / 5 = ((2 : ℤ) : ℚ) by norm_num, Int.floor_intCast]
  have f60 : ⌊(60 : ℚ) / 5⌋ = 12 := by
    rw [show (60 : ℚ) / 5 = ((12 : ℤ) : ℚ) by norm_num, Int.floor_intCast]
  have h5 := getNISTTempOffset_bucket 5 (by norm_num) (by norm_num)
  have h10 := getNISTTempOffset_bucket 10 (by norm_num) (by norm_num)
  have h60 := getNISTTempOffset_bucket 60 (by norm_num) (by norm_num)
  rw [f5] at h5
  rw [f10] at h10
  rw [f60] at h60
  obtain ⟨_, _, _, _, i5, _, _, _, _, e5⟩ := h5
  obtain ⟨_, _, _, _, i10, _, _, _, e10, _⟩ := h10
  obtain ⟨_, _, _, _, i60, _, _, e60, _, _⟩ := h60
  have t4 : nist4Table.getD ((12 : ℤ) - 1).toNat 0 = 9 := by decide
  have t7 : nist7Table.getD ((2 : ℤ) - 1).toNat 0 = 6 := by decide
  have t10 : nist10Table.getD ((1 : ℤ) - 1).toNat 0 = 25 := by decide
  rw [t4] at e60
  rw [t7] at e10
  rw [t10] at e5
  refine ⟨by rw [i5]; rfl, by rw [i10]; rfl, by rw [i60]; rfl, ?_, ?_, ?_⟩
  · rw [e60]; norm_num
  · rw [e10]; norm_num
  · rw [e5]; norm_num


/-- C12: after `autoCalibrateProbe(stabilize, T)` made with no pending point and a nonzero
calibration reading `r`, the call has returned a nominal standard `N` in {4, 7, 10} and
the pending point is `lastCalReading = r`, `lastCalPh = N + getNIST<N>TempOffset(T)`,
`lastCalTemp = T`. -/
theorem autoCalibrateProbe_pending_point (env : Env) (fuel : Nat) (p : PhProbe)
    (stabilize : Bool) (temperature : ℚ) (w w2 : World) (r : Nat)
    (hpend : p.lastCalReading = 0) (hr : r ≠ 0)
    (hread : takeReading env fuel p stabilize p.numCalibrationSamples (afterRead p 1 w)
      = some (r, w2)) :
    ∃ (N : Nat) (p1 : PhProbe),
      autoCalibrateProbe env fuel p stabilize temperature w = some (N, p1, w2) ∧
      N = nominalStandard (initialGuessPh env p temperature w) ∧
      p1.lastCalReading = r ∧ p1.lastCalTemp = temperature ∧
      ((N = 4 ∧ p1.lastCalPh = 4 + getNIST4TempOffset temperature) ∨
       (N = 7 ∧ p1.lastCalPh = 7 + getNIST7TempOffset temperature) ∨
       (N = 10 ∧ p1.lastCalPh = 10 + getNIST10TempOffset temperature)) := by
  obtain ⟨s10, s4, s7⟩ := standardValue_cases temperature
  have hcal := calibrateProbe_eq env fuel p
    (standardValue (nominalStandard (initialGuessPh env p temperature w)) temperature)
    stabilize temperature (afterRead p 1 w) w2 r hread
  rw [calibrateWith_first p r _ temperature hr hpend] at hcal
  refine ⟨nominalStandard (initialGuessPh env p temperature w),
    { p with lastCalReading := r,
             lastCalPh := standardValue
               (nominalStandard (initialGuessPh env p temperature w)) temperature,
             lastCalTemp := temperature }, ?_, rfl, rfl, rfl, ?_⟩
  · rw [autoCalibrateProbe_eq, hcal]
    simp
  · rcases nominalStandard_mem (initialGuessPh env p temperature w) with h | h | h
    · exact Or.inr (Or.inr ⟨h, by rw [h]; exact s10⟩)
    · exact Or.inl ⟨h, by rw [h]; exact s4⟩
    · exact Or.inr (Or.inl ⟨h, by rw [h]; exact s7⟩)

/-- Witness for C12: the default probe at 25 degrees with every ADC sample 500. -/
theorem autoCalibrateProbe_pending_point_witness :
    ∃ (N : Nat) (p1 : PhProbe),
      autoCalibrateProbe (constEnv 500 1) 0 {} false 25 {}
        = some (N, p1, afterRead {} 10 (afterRead {} 1 {})) ∧
      N = nominalStandard (initialGuessPh (constEnv 500 1) {} 25 {}) ∧
      p1.lastCalReading = 500 ∧ p1.lastCalTemp = 25 ∧
      ((N = 4 ∧ p1.lastCalPh = 4 + getNIST4TempOffset 25) ∨
       (N = 7 ∧ p1.lastCalPh = 7 + getNIST7TempOffset 25) ∨
       (N = 10 ∧ p1.lastCalPh = 10 + getNIST10TempOffset 25)) :=
  autoCalibrateProbe_pending_point (constEnv 500 1) 0 {} false 25 {}
    (afterRead {} 10 (afterRead {} 1 {})) 500 rfl (by decide) (by decide)


/-- C13: a third `calibrateProbe` call after a success starts a fresh pair. Starting with no
pending point, for nonzero averaged readings `r1`, `r2`, `r3` with `|r1 - r2| ≥ 50`, three
consecutive calls return 1, 0, 1; the state after the third call is the state after the
second call with the pending point set to the third call's `(r3, pH3, T3)`, so the
coefficients computed by the second call are untouched and nothing of the third result
depends on `r1` or `r2`. The state holds a single pending point (`lastCalReading`,
`lastCalPh`, `lastCalTemp`; none when `lastCalReading = 0`), and a call made while a point
is pending returns 0 or 2, never 1, and leaves no point pending. -/
theorem calibrateProbe_fresh_pair (env : Env) (fuel1 fuel2 fuel3 : Nat) (p : PhProbe)
    (stab1 stab2 stab3 : Bool) (pH1 pH2 pH3 T1 T2 T3 : ℚ) (u u1 v v1 w w1 : World)
    (r1 r2 r3 : Nat)
    (hpend : p.lastCalReading = 0) (hr1 : r1 ≠ 0) (hr2 : r2 ≠ 0) (hr3 : r3 ≠ 0)
    (hfar : 50 ≤ |(r1 : ℤ) - (r2 : ℤ)|)
    (hread1 : takeReading env fuel1 p stab1 p.numCalibrationSamples u = some (r1, u1))
    (hread2 : takeReading env fuel2 p stab2 p.numCalibrationSamples v = some (r2, v1))
    (hread3 : takeReading env fuel3 p stab3 p.numCalibrationSamples w = some (r3, w1)) :
    ∃ (pA pB pC : PhProbe),
      calibrateProbe env fuel1 p pH1 stab1 T1 u = some (1, pA, u1) ∧
      calibrateProbe env fuel2 pA pH2 stab2 T2 v = some (0, pB, v1) ∧
      calibrateProbe env fuel3 pB pH3 stab3 T3 w = some (1, pC, w1) ∧
      pB.lastCalReading = 0 ∧
      pB.calibrationValues.probeSlope
        = twoPointSlope p.calibrationValues r1 pH1 T1 r2 pH2 T2 ∧
      pB.calibrationValues.probeOffset
        = twoPointOffset p.calibrationValues r1 pH1 T1 r2 pH2 T2 ∧
      pC.calibrationValues = pB.calibrationValues ∧
      pC = { pB with lastCalReading := r3, lastCalPh := pH3, lastCalTemp := T3 } ∧
      pC.lastCalReading = r3 ∧ pC.lastCalPh = pH3 ∧ pC.lastCalTemp = T3 ∧
      (∀ (q q1 : PhProbe) (pH temperature : ℚ) (stabilize : Bool) (fuel st : Nat)
          (x x1 : World),
        q.lastCalReading ≠ 0 →
        calibrateProbe env fuel q pH stabilize temperature x = some (st, q1, x1) →
        (st = 0 ∨ st = 2) ∧ st ≠ 1 ∧ q1.lastCalReading = 0) := by
  have hfar2 : 50 ≤ |(r2 : ℤ) - (r1 : ℤ)| := by rwa [abs_sub_comm]
  -- first call
  have hA := calibrateWith_first p r1 pH1 T1 hr1 hpend
  have c1 := calibrateProbe_eq env fuel1 p pH1 stab1 T1 u u1 r1 hread1
  rw [hA] at c1
  -- second call
  have cfgA : SameConfig p
      { p with lastCalReading := r1, lastCalPh := pH1, lastCalTemp := T1 } := ⟨rfl, rfl, rfl⟩
  have hB := calibrateWith_far
    { p with lastCalReading := r1, lastCalPh := pH1, lastCalTemp := T1 } r2 pH2 T2 hr2 hr1 hfar2
  have c2 := calibrateProbe_eq_of_sameConfig env fuel2 p _ pH2 stab2 T2 v v1 r2 cfgA rfl hread2
  rw [hB] at c2
  -- third call
  have cfgB : SameConfig p (calibrateWith
      { p with lastCalReading := r1, lastCalPh := pH1, lastCalTemp := T1 } r2 pH2 T2).2 := by
    rw [hB]
    exact ⟨rfl, rfl, rfl⟩
  rw [hB] at cfgB
  have c3 := calibrateProbe_eq_of_sameConfig env fuel3 p _ pH3 stab3 T3 w w1 r3 cfgB rfl hread3
  rw [calibrateWith_first _ r3 pH3 T3 hr3 rfl] at c3
  refine ⟨_, _, _, c1, c2, c3, rfl, rfl, rfl, rfl, rfl, rfl, rfl, rfl, ?_⟩
  intro q q1 pH temperature stabilize fuel st x x1 hq hcall
  obtain ⟨r, h1, h2, _⟩ := calibrateProbe_inv env fuel q pH stabilize temperature x st q1 x1 hcall
  obtain ⟨hst, hreset⟩ := calibrateWith_pending q r pH temperature hq
  rw [h1] at hst
  rw [h2] at hreset
  refine ⟨hst, ?_, hreset⟩
  rcases hst with h | h <;> rw [h] <;> norm_num


/-- Witness for C13: the default probe, ten samples of 200, ten of 300 and ten of 400,
calibrated to pH 4, 7 and 10 at 25 degrees. -/
theorem calibrateProbe_fresh_pair_witness :
    ∃ (pA pB pC : PhProbe),
      calibrateProbe (listEnv (List.replicate 10 200 ++ List.replicate 10 300 ++ [400]) [0])
        0 {} 4 false 25 {} = some (1, pA, afterRead {} 10 {}) ∧
      calibrateProbe (listEnv (List.replicate 10 200 ++ List.replicate 10 300 ++ [400]) [0])
        0 pA 7 false 25 (afterRead {} 10 {})
        = some (0, pB, afterRead {} 10 (afterRead {} 10 {})) ∧
      calibrateProbe (listEnv (List.replicate 10 200 ++ List.replicate 10 300 ++ [400]) [0])
        0 pB 10 false 25 (afterRead {} 10 (afterRead {} 10 {}))
        = some (1, pC, afterRead {} 10 (afterRead {} 10 (afterRead {} 10 {}))) ∧
      pC.calibrationValues = pB.calibrationValues ∧
      pC.lastCalReading = 400 ∧ pC.lastCalPh = 10 ∧ pC.lastCalTemp = 25 := by
  obtain ⟨pA, pB, pC, c1, c2, c3, _, _, _, hcv, _, h1, h2, h3, _⟩ :=
    calibrateProbe_fresh_pair
      (listEnv (List.replicate 10 200 ++ List.replicate 10 300 ++ [400]) [0]) 0 0 0 {}
      false false false 4 7 10 25 25 25
      {} (afterRead {} 10 {}) (afterRead {} 10 {}) (afterRead {} 10 (afterRead {} 10 {}))
      (afterRead {} 10 (afterRead {} 10 {}))
      (afterRead {} 10 (afterRead {} 10 (afterRead {} 10 {})))
      200 300 400 rfl (by decide) (by decide) (by decide) (by decide)
      (by decide) (by decide) (by decide)
  exact ⟨pA, pB, pC, c1, c2, c3, hcv, h1, h2, h3⟩

/-- C16: whatever `autoCalibrateProbe` returns (0, 4, 7 or 10), `numSamples` afterwards
equals its value before the call. The region guess is the `readPh` formula on exactly one
raw ADC sample, read with `numSamples = 1` and without stabilisation (one `analogRead`, no
`delay`, no `millis`), and the reading used for the calibration itself is taken afterwards,
from the following samples, with `numCalibrationSamples` samples per `readRaw`. -/
theorem autoCalibrateProbe_numSamples (env : Env) (fuel : Nat) (p p1 : PhProbe)
    (stabilize : Bool) (temperature : ℚ) (w w2 : World) (res : Nat)
    (h : autoCalibrateProbe env fuel p stabilize temperature w = some (res, p1, w2)) :
    p1.numSamples = p.numSamples ∧
    (res = 0 ∨ res = 4 ∨ res = 7 ∨ res = 10) ∧
    readPh env fuel { p with numSamples := 1 } false temperature w
      = some (initialGuessPh env p temperature w, afterRead p 1 w) ∧
    initialGuessPh env p temperature w
      = phOfReading p.calibrationValues (env.adc p.probePin w.reads % 65536) temperature ∧
    afterRead p 1 w = { w with reads := w.reads + 1 } ∧
    (∃ (st r : Nat),
      takeReading env fuel p stabilize p.numCalibrationSamples (afterRead p 1 w)
        = some (r, w2) ∧
      calibrateProbe env fuel p
        (standardValue (nominalStandard (initialGuessPh env p temperature w)) temperature)
        stabilize temperature (afterRead p 1 w) = some (st, p1, w2) ∧
      res = (if st = 2 then 0 else nominalStandard (initialGuessPh env p temperature w))) := by
  obtain ⟨st, hcal, hres⟩ :=
    autoCalibrateProbe_inv env fuel p stabilize temperature w res p1 w2 h
  obtain ⟨r, _, hp1, hread⟩ := calibrateProbe_inv env fuel p _ stabilize temperature _ st p1 w2 hcal
  refine ⟨?_, ?_, readPh_single env fuel p temperature w, rfl, afterRead_one p w,
    ⟨st, r, hread, hcal, hres⟩⟩
  · rw [← hp1]
    exact (calibrateWith_config p r _ temperature).1
  · rw [hres]
    by_cases h2 : st = 2
    · exact Or.inl (by simp [h2])
    · simp only [h2, if_false]
      rcases nominalStandard_mem (initialGuessPh env p temperature w) with h | h | h
      · exact Or.inr (Or.inr (Or.inr h))
      · exact Or.inr (Or.inl h)
      · exact Or.inr (Or.inr (Or.inl h))

/-- Witness for C16: a probe with `numSamples = 37` at 25 degrees, every ADC sample 500. -/
theorem autoCalibrateProbe_numSamples_witness :
    ∃ (res : Nat) (p1 : PhProbe) (w2 : World),
      autoCalibrateProbe (constEnv 500 1) 0 { numSamples := 37 } false 25 {}
        = some (res, p1, w2) ∧
      p1.numSamples = 37 ∧
      (res = 0 ∨ res = 4 ∨ res = 7 ∨ res = 10) ∧
      afterRead { numSamples := 37 } 1 {} = { reads := 1 } ∧
      w2.reads = 11 := by
  have hc := calibrateProbe_eq (constEnv 500 1) 0 { numSamples := 37 }
    (standardValue (nominalStandard (initialGuessPh (constEnv 500 1) { numSamples := 37 } 25 {}))
      25)
    false 25 (afterRead { numSamples := 37 } 1 {})
    (afterRead { numSamples := 37 } 10 (afterRead { numSamples := 37 } 1 {})) 500 (by decide)
  rw [calibrateWith_first { numSamples := 37 } 500 _ 25 (by decide) rfl] at hc
  have ha := autoCalibrateProbe_eq (constEnv 500 1) 0 { numSamples := 37 } false 25 {}
  rw [hc] at ha
  dsimp only at ha
  rw [if_neg (by decide)] at ha
  obtain ⟨h1, h2, _, _, h5, _⟩ :=
    autoCalibrateProbe_numSamples (constEnv 500 1) 0 { numSamples := 37 } _ false 25 {} _ _ ha
  exact ⟨_, _, _, ha, h1, h2, h5, rfl⟩


/-- C19: for every temperature the temperature-adjusted standard lies in the
classification region of its own nominal standard: `10 + getNIST10TempOffset(t) ≥ 8.5`,
`4 + getNIST4TempOffset(t) ≤ 5.5` and `5.5 < 7 + getNIST7TempOffset(t) < 8.5`; hence a
guessed pH equal to the adjusted value of standard `N` is classified as `N` again. -/
theorem standardValue_in_own_region (temp : ℚ) :
    85 / 10 ≤ 10 + getNIST10TempOffset temp ∧
    4 + getNIST4TempOffset temp ≤ 55 / 10 ∧
    55 / 10 < 7 + getNIST7TempOffset temp ∧ 7 + getNIST7TempOffset temp < 85 / 10 ∧
    nominalStandard (standardValue 10 temp) = 10 ∧
    nominalStandard (standardValue 4 temp) = 4 ∧
    nominalStandard (standardValue 7 temp) = 7 := by
  obtain ⟨⟨a1, a2⟩, ⟨b1, b2⟩, ⟨c1, c2⟩⟩ := nistOffset_bounds temp
  obtain ⟨s10, s4, s7⟩ := standardValue_cases temp
  have r10 : (85 : ℚ) / 10 ≤ 10 + getNIST10TempOffset temp := by linarith
  have r4 : 4 + getNIST4TempOffset temp ≤ (55 : ℚ) / 10 := by linarith
  have r7a : (55 : ℚ) / 10 < 7 + getNIST7TempOffset temp := by linarith
  have r7b : 7 + getNIST7TempOffset temp < (85 : ℚ) / 10 := by linarith
  refine ⟨r10, r4, r7a, r7b, ?_, ?_, ?_⟩
  · rw [s10]
    exact (nominalStandard_cases _).1.mpr r10
  · rw [s4]
    exact (nominalStandard_cases _).2.1.mpr r4
  · rw [s7]
    exact (nominalStandard_cases _).2.2.mpr ⟨r7a, r7b⟩


/-- C20: amplifier calibration makes the amplifier correction recover the test voltage, in
exact arithmetic. If `calibrateAmpOffset` takes the averaged reading `r0` and
`calibrateAmpGain(testVoltage)` then takes the averaged reading `r1 ≠ r0` with
`testVoltage ≠ 0`, then afterwards `ampOffset = r0 * 5/1024`,
`ampGain = (r1 - r0) * 5/1024 / testVoltage ≠ 0`, the probe voltage
`(r * 5/1024 - ampOffset) / ampGain` is `testVoltage` for `r = r1` and 0 for `r = r0`, and
`probeSlope`, `probeOffset`, `isoelectricPh` and the pending calibration point are
unchanged. -/
theorem ampCalibration_recovers_testVoltage (env : Env) (p : PhProbe) (testVoltage : ℚ)
    (w v : World) (hn : p.numCalibrationSamples ≠ 0) (htv : testVoltage ≠ 0)
    (hr : rawAt env p p.numCalibrationSamples v.reads
      ≠ rawAt env p p.numCalibrationSamples w.reads) :
    ∃ (pA pB : PhProbe),
      calibrateAmpOffset env p w = some (pA, afterRead p p.numCalibrationSamples w) ∧
      calibrateAmpGain env pA testVoltage v
        = some (pB, afterRead p p.numCalibrationSamples v) ∧
      pB.calibrationValues.ampOffset
        = (rawAt env p p.numCalibrationSamples w.reads : ℚ) * (5 / 1024) ∧
      pB.calibrationValues.ampGain
        = ((rawAt env p p.numCalibrationSamples v.reads : ℚ)
            - (rawAt env p p.numCalibrationSamples w.reads : ℚ)) * (5 / 1024) / testVoltage ∧
      pB.calibrationValues.ampGain ≠ 0 ∧
      probeVoltage pB.calibrationValues (rawAt env p p.numCalibrationSamples v.reads)
        = testVoltage ∧
      probeVoltage pB.calibrationValues (rawAt env p p.numCalibrationSamples w.reads) = 0 ∧
      pB.calibrationValues.probeSlope = p.calibrationValues.probeSlope ∧
      pB.calibrationValues.probeOffset = p.calibrationValues.probeOffset ∧
      pB.calibrationValues.isoelectricPh = p.calibrationValues.isoelectricPh ∧
      pB.lastCalReading = p.lastCalReading ∧ pB.lastCalPh = p.lastCalPh ∧
      pB.lastCalTemp = p.lastCalTemp := by
  have hB : calibrateAmpGain env
      { p with calibrationValues := { p.calibrationValues with
          ampOffset := (rawAt env p p.numCalibrationSamples w.reads : ℚ) * ADC_FACTOR } }
      testVoltage v
      = some ({ p with calibrationValues := { p.calibrationValues with
          ampOffset := (rawAt env p p.numCalibrationSamples w.reads : ℚ) * ADC_FACTOR,
          ampGain := ((rawAt env p p.numCalibrationSamples v.reads : ℚ) * ADC_FACTOR
            - (rawAt env p p.numCalibrationSamples w.reads : ℚ) * ADC_FACTOR) / testVoltage } },
        afterRead p p.numCalibrationSamples v) := by
    have h := calibrateAmpGain_eq env
      { p with calibrationValues := { p.calibrationValues with
          ampOffset := (rawAt env p p.numCalibrationSamples w.reads : ℚ) * ADC_FACTOR } }
      testVoltage v hn
    rw [rawAt_congr env p
      { p with calibrationValues := { p.calibrationValues with
          ampOffset := (rawAt env p p.numCalibrationSamples w.reads : ℚ) * ADC_FACTOR } }
      rfl] at h
    exact h
  generalize rawAt env p p.numCalibrationSamples v.reads = r1 at hr hB ⊢
  generalize hr0 : rawAt env p p.numCalibrationSamples w.reads = r0 at hr hB ⊢
  have hA := calibrateAmpOffset_eq env p w hn
  rw [hr0] at hA
  have hne : (r1 : ℚ) - (r0 : ℚ) ≠ 0 := by
    intro h
    apply hr
    have : (r1 : ℚ) = (r0 : ℚ) := by linarith
    exact_mod_cast this
  have hnum : (r1 : ℚ) * (5 / 1024) - (r0 : ℚ) * (5 / 1024) ≠ 0 := by
    intro h
    apply hne
    linarith
  refine ⟨_, _, hA, hB, rfl, ?_, ?_, ?_, ?_, rfl, rfl, rfl, rfl, rfl, rfl⟩
  · show ((r1 : ℚ) * ADC_FACTOR - (r0 : ℚ) * ADC_FACTOR) / testVoltage = _
    unfold ADC_FACTOR
    ring
  · show ((r1 : ℚ) * ADC_FACTOR - (r0 : ℚ) * ADC_FACTOR) / testVoltage ≠ 0
    unfold ADC_FACTOR
    exact div_ne_zero hnum htv
  · show ((r1 : ℚ) * ADC_FACTOR - (r0 : ℚ) * ADC_FACTOR)
      / (((r1 : ℚ) * ADC_FACTOR - (r0 : ℚ) * ADC_FACTOR) / testVoltage) = testVoltage
    unfold ADC_FACTOR
    rw [div_div_eq_mul_div, mul_comm, mul_div_assoc, div_self hnum, mul_one]
  · show ((r0 : ℚ) * ADC_FACTOR - (r0 : ℚ) * ADC_FACTOR) / _ = 0
    rw [sub_self, zero_div]

/-- Witness for C20: the default probe, ten samples of 400 with the input grounded and
then ten samples of 380 at a test voltage of 1/10 V. -/
theorem ampCalibration_recovers_testVoltage_witness :
    ∃ (pA pB : PhProbe),
      calibrateAmpOffset (listEnv (List.replicate 10 400 ++ [380]) [0]) {} {}
        = some (pA, afterRead {} 10 {}) ∧
      calibrateAmpGain (listEnv (List.replicate 10 400 ++ [380]) [0]) pA (1 / 10)
        (afterRead {} 10 {}) = some (pB, afterRead {} 10 (afterRead {} 10 {})) ∧
      pB.calibrationValues.ampOffset = (400 : ℚ) * (5 / 1024) ∧
      pB.calibrationValues.ampGain = ((380 : ℚ) - 400) * (5 / 1024) / (1 / 10) ∧
      pB.calibrationValues.ampGain ≠ 0 ∧
      probeVoltage pB.calibrationValues 380 = 1 / 10 ∧
      probeVoltage pB.calibrationValues 400 = 0 ∧
      pB.calibrationValues.probeSlope = 1 ∧ pB.calibrationValues.probeOffset = 0 ∧
      pB.calibrationValues.isoelectricPh = 7 ∧ pB.lastCalReading = 0 := by
  have e0 : rawAt (listEnv (List.replicate 10 400 ++ [380]) [0]) {} 10 0 = 400 := by decide
  have e1 : rawAt (listEnv (List.replicate 10 400 ++ [380]) [0]) {} 10 10 = 380 := by decide
  obtain ⟨pA, pB, h1, h2, h3, h4, h5, h6, h7, h8, h9, h10, h11, _, _⟩ :=
    ampCalibration_recovers_testVoltage (listEnv (List.replicate 10 400 ++ [380]) [0]) {}
      (1 / 10) {} (afterRead {} 10 {}) (by decide) (by norm_num) (by decide)
  have e0' : rawAt (listEnv (List.replicate 10 400 ++ [380]) [0]) {}
      ({} : PhProbe).numCalibrationSamples ({} : World).reads = 400 := e0
  have e1' : rawAt (listEnv (List.replicate 10 400 ++ [380]) [0]) {}
      ({} : PhProbe).numCalibrationSamples (afterRead {} 10 {}).reads = 380 := e1
  rw [e0'] at h3 h4 h7
  rw [e1'] at h4 h6
  exact ⟨pA, pB, h1, h2, by exact_mod_cast h3, by exact_mod_cast h4, h5, h6, h7, h8, h9,
    h10, h11⟩


/-- C18: the 16-bit accumulator of `readRaw` cannot wrap when at most 64 samples are
averaged. For `1 ≤ N ≤ 64` and `N` samples in `0 .. 1023`, every running total is below
65536 and equals the true partial sum, the result is `⌊sum / N⌋`, and it lies between any
lower and upper bound of the samples (in particular between the smallest and the largest
sample). `N = 64` is the largest such count: for every `M ≥ 65` the full-scale sequence
(all samples 1023) has a sum of at least 65536 and a result different from
`⌊sum / M⌋`. -/
theorem readRaw_no_wrap_upto_64 (env : Env) (p : PhProbe) (N : Nat) (w : World)
    (h1 : 1 ≤ N) (h64 : N ≤ 64)
    (hadc : ∀ j, j < N → env.adc p.probePin (w.reads + j) ≤ 1023) :
    (∀ m, m ≤ N →
      sampleSum env p.probePin w.reads m < 65536 ∧
      (readRawLoop env p N m 0 0 w).1 = sampleSum env p.probePin w.reads m) ∧
    readRaw env p N w
      = some (sampleSum env p.probePin w.reads N / N, afterRead p N w) ∧
    (∀ lo hi, (∀ j, j < N → lo ≤ env.adc p.probePin (w.reads + j)
        ∧ env.adc p.probePin (w.reads + j) ≤ hi) →
      lo ≤ sampleSum env p.probePin w.reads N / N ∧
      sampleSum env p.probePin w.reads N / N ≤ hi) ∧
    (∀ M, 65 ≤ M →
      (∀ pin k, (constEnv 1023 1).adc pin k ≤ 1023) ∧
      65536 ≤ sampleSum (constEnv 1023 1) p.probePin w.reads M ∧
      ∃ r, readRaw (constEnv 1023 1) p M w = some (r, afterRead p M w) ∧
        r ≠ sampleSum (constEnv 1023 1) p.probePin w.reads M / M) := by
  have hN : N ≠ 0 := by omega
  have hpart : ∀ m, m ≤ N → sampleSum env p.probePin w.reads m < 65536 := by
    intro m hm
    have := sampleSum_le env p.probePin w.reads m 1023 (fun j hj => hadc j (by omega))
    have : m * 1023 ≤ 64 * 1023 := Nat.mul_le_mul_right 1023 (by omega)
    omega
  refine ⟨?_, ?_, ?_, ?_⟩
  · intro m hm
    exact ⟨hpart m hm, readRawLoop_total env p N m w (hpart m hm)⟩
  · exact readRaw_average env p N w hN (hpart N (le_refl _))
  · intro lo hi hb
    have hlo := sampleSum_ge env p.probePin w.reads N lo (fun j hj => (hb j hj).1)
    have hhi := sampleSum_le env p.probePin w.reads N hi (fun j hj => (hb j hj).2)
    constructor
    · exact (Nat.le_div_iff_mul_le (by omega)).mpr (by rw [Nat.mul_comm]; exact hlo)
    · exact Nat.div_le_of_le_mul hhi
  · intro M hM
    obtain ⟨hsum, hdiv, hraw⟩ := rawAt_full_scale_wraps p M w.reads hM
    refine ⟨fun _ _ => le_refl _, hsum, rawAt (constEnv 1023 1) p M w.reads, ?_, ?_⟩
    · exact readRaw_eq (constEnv 1023 1) p M w (by omega)
    · rw [hdiv]
      omega

/-- Witness for C18: 64 full-scale samples on the default probe. -/
theorem readRaw_no_wrap_upto_64_witness :
    sampleSum (constEnv 1023 1) 0 0 64 < 65536 ∧
    readRaw (constEnv 1023 1) {} 64 {} = some (1023, afterRead {} 64 {}) ∧
    (∃ r, readRaw (constEnv 1023 1) {} 65 {} = some (r, afterRead {} 65 {}) ∧ r ≠ 1023) := by
  obtain ⟨hrun, hres, _, hmax⟩ :=
    readRaw_no_wrap_upto_64 (constEnv 1023 1) {} 64 {} (by norm_num) (by norm_num)
      (fun _ _ => le_refl _)
  have hs : sampleSum (constEnv 1023 1) ({} : PhProbe).probePin ({} : World).reads 64
      = 64 * 1023 := sampleSum_constEnv 1023 1 _ _ 64
  have hs65 : sampleSum (constEnv 1023 1) ({} : PhProbe).probePin ({} : World).reads 65
      = 65 * 1023 := sampleSum_constEnv 1023 1 _ _ 65
  obtain ⟨_, _, r, hr, hne⟩ := hmax 65 (le_refl _)
  rw [hs] at hres
  rw [hs65] at hne
  exact ⟨(hrun 64 (le_refl _)).1, hres, r, hr, hne⟩


/-- C15 (failing input): a target with 16-bit `int`, a stabilisation delay of 120 s, one
sample per reading and the readings 300, 200, 250, 240. The fall followed by a rise is
detected at the third reading and the fourth reading 240 is returned, but the sleep
requested in between is `delay(54464)`, because `120 * 1000` wraps modulo `2 ^ 16`: 54.464
seconds instead of 120 seconds. -/
theorem readStableValue_forced_accept_sleep_wraps :
    (listEnv [300, 200, 250, 240] [0]).intModulus = 2 ^ 16 ∧
    readStableValue (listEnv [300, 200, 250, 240] [0]) 3 { stabilizeDelaySecs := 120 } 1 {}
      = some (240, { reads := 4, clockReads := 4, delays := [54464] }) ∧
    stabilizeDelayMs (listEnv [300, 200, 250, 240] [0]) { stabilizeDelaySecs := 120 } = 54464 ∧
    54464 ≠ 120 * 1000 := by
  decide

end PhProbe
